import Mathlib

/-!
Verification of the reconciliation state engine of `tmux-vcs-sync`
(`tmux/state/state.go`, `api/api.go`).

Modelling conventions:
* Go strings are Lean `String`s; all splitting/joining helpers used by the
  naming module are defined here by structural recursion so they can be reasoned
  about (they implement exactly `strings.Split`/`strings.SplitN`/`strings.Join`
  with the separator `">"`).
* Go maps are association lists with no duplicate keys (`mlookup`, `minsert`,
  `merase`); `minsert` overwrites, `merase` deletes, `m.length` is Go's
  `len(m)`.  Go map iteration order is unspecified; the model fixes one
  canonical order, which is one of the schedules the Go runtime can produce.
* tmux sessions are identified by their session ID, modelled as a `Nat`
  (tmux IDs are `"$0", "$1", ...`); the server hands out fresh increasing IDs.
* The two external collaborators (tmux and the VCS repositories) are modelled
  by an explicit server state (`TmuxServer`) plus an oracle (`Env`) that decides
  which collaborator calls fail, what `Repository.List` / `Repository.Exists`
  answer, and which repository (if any) a directory probe resolves to.  Every
  collaborator call is recorded in the server's `calls` trace, so "operation X
  was not invoked" is expressible.
* Errors are strings; `errors.Join` of a nonempty list is their newline join,
  of an empty list it is Go `nil` (`Option.none`).
-/

namespace TVS

/-! ### Association-list model of Go maps -/

variable {K V : Type} [DecidableEq K]

/-- Go map lookup `m[k]` (the `, ok` form): first matching entry. -/
def mlookup : List (K × V) → K → Option V
  | [], _ => none
  | p :: rest, k => if p.1 = k then some p.2 else mlookup rest k

/-- Go map deletion `delete(m, k)`: removes every entry with key `k`. -/
def merase : List (K × V) → K → List (K × V)
  | [], _ => []
  | p :: rest, k => if p.1 = k then merase rest k else p :: merase rest k

/-- Go map assignment `m[k] = v`: overwrites any entry with key `k`. -/
def minsert (m : List (K × V)) (k : K) (v : V) : List (K × V) :=
  (k, v) :: merase m k

/-- Go map indexing with the zero value as default (`m[k]` in value position). -/
def mfindD (m : List (K × V)) (k : K) (d : V) : V :=
  (mlookup m k).getD d

/-- The keys of a map. -/
def mkeys (m : List (K × V)) : List K := m.map Prod.fst

/-- Well-formedness of the association-list representation: each key occurs
at most once.  Every map built by `minsert`/`merase` from `[]` satisfies it. -/
def NodupKeys (m : List (K × V)) : Prop := (mkeys m).Nodup

/-! ### `strings.Split` / `strings.SplitN` / `strings.Join` with separator `">"`

`state.go` only ever splits on the one-character separator `">"`
(`strings.SplitN(name, ">", 3)`), so the splitter is specialised to it.
`goSplitN3` implements `SplitN(s, ">", 3)` as: first two fields of the full
split, with the remaining fields re-joined (which is exactly what Go's
`SplitN` produces for a 1-character separator). -/

/-- `strings.Split(s, ">")` on the character list of `s`. -/
def splitGtChars : List Char → List (List Char)
  | [] => [[]]
  | c :: rest =>
    if c = '>' then [] :: splitGtChars rest
    else
      match splitGtChars rest with
      | [] => [[c]]
      | p :: ps => (c :: p) :: ps

/-- `strings.Join(l, ">")` on character lists. -/
def joinGtChars : List (List Char) → List Char
  | [] => []
  | [l] => l
  | l :: ls => l ++ '>' :: joinGtChars ls

/-- `strings.Split(s, ">")`. -/
def splitGt (s : String) : List String := (splitGtChars s.data).map String.mk

/-- `strings.Join(l, ">")`. -/
def joinGt (l : List String) : String := String.mk (joinGtChars (l.map String.data))

/-- `strings.SplitN(s, ">", 3)`. -/
def goSplitN3 (s : String) : List String :=
  match splitGt s with
  | a :: b :: c :: rest => [a, b, joinGt (c :: rest)]
  | parts => parts

/-! ### Data model (`state.go`) -/

/-- `state.RepoName`: identifies a repository by VCS name and repository name. -/
structure RepoName where
  VCS : String
  Repo : String
deriving DecidableEq, Repr

/-- `state.WorkUnitName`: a `RepoName` (embedded in Go) plus the work unit. -/
structure WorkUnitName where
  repoName : RepoName
  WorkUnit : String
deriving DecidableEq, Repr

/-- Promoted field of the embedded `RepoName` (Go: `n.VCS`). -/
def WorkUnitName.VCS (n : WorkUnitName) : String := n.repoName.VCS

/-- Promoted field of the embedded `RepoName` (Go: `n.Repo`). -/
def WorkUnitName.Repo (n : WorkUnitName) : String := n.repoName.Repo

/-- An `api.Repository` handle, reduced to the data the state engine reads
from it: `VCS().Name()`, `Name()`, and `RootDir()`.  Its behavioural methods
(`List`, `Exists`) live in the `Env` oracle. -/
structure Repository where
  vcsName : String
  name : String
  rootDir : String
deriving DecidableEq, Repr

/-- `state.NewRepoName`. -/
def NewRepoName (repo : Repository) : RepoName :=
  { VCS := repo.vcsName, Repo := repo.name }

/-- `state.NewWorkUnitName`. -/
def NewWorkUnitName (repo : Repository) (workUnitName : String) : WorkUnitName :=
  { repoName := NewRepoName repo, WorkUnit := workUnitName }

/-- `RepoName.String()`. -/
def RepoName.toString (n : RepoName) : String :=
  if n.VCS ≠ "" then n.VCS ++ ">" ++ n.Repo else n.Repo

/-- `WorkUnitName.RepoString()`. -/
def WorkUnitName.RepoString (n : WorkUnitName) : String :=
  n.Repo ++ ">" ++ n.WorkUnit

/-- `WorkUnitName.WorkUnitString()`. -/
def WorkUnitName.WorkUnitString (n : WorkUnitName) : String :=
  n.WorkUnit

/-- `WorkUnitName.String()`. -/
def WorkUnitName.toString (n : WorkUnitName) : String :=
  if n.VCS ≠ "" then n.VCS ++ ">" ++ n.Repo ++ ">" ++ n.WorkUnit
  else if n.Repo ≠ "" then n.RepoString
  else n.WorkUnitString

/-- `state.ParseSessionNameWithoutKnownRepository`. -/
def ParseSessionNameWithoutKnownRepository (tmuxSessionName : String) : WorkUnitName :=
  match goSplitN3 tmuxSessionName with
  | [a] => { repoName := { VCS := "", Repo := "" }, WorkUnit := a }
  | [a, b] => { repoName := { VCS := "", Repo := a }, WorkUnit := b }
  | [a, b, c] => { repoName := { VCS := a, Repo := b }, WorkUnit := c }
  | _ => { repoName := { VCS := "", Repo := "" }, WorkUnit := tmuxSessionName }

/-- `state.ParseSessionName`.  The parse of the session name is advisory: a
repo-name hint that disagrees with `repo` is only logged, and the result
always carries `repo`'s own identity. -/
def ParseSessionName (repo : Repository) (tmuxSessionName : String) : WorkUnitName :=
  let n := ParseSessionNameWithoutKnownRepository tmuxSessionName
  let m := NewRepoName repo
  if n.repoName ≠ m then { n with repoName := m } else n

/-! ### The terminal collaborator (tmux server) and the behaviour oracle -/

/-- A `tmux.Session` handle: the engine only ever compares handles through
`ID()` / `SameSession`, so the handle is its ID (a `Nat` standing for tmux's
`"$0", "$1", ...`). -/
structure Session where
  id : Nat
deriving DecidableEq, Repr

/-- One live session on the tmux server: its ID plus its two mutable
properties read by the engine (`session_name`, `session_path`). -/
structure SessionState where
  id : Nat
  name : String
  path : String
deriving DecidableEq, Repr

/-- A collaborator call, recorded so that "operation X was (not) invoked" and
the order of kills are observable. -/
inductive TmuxCall where
  | newSession (name dir : String)
  | rename (id : Nat) (name : String)
  | kill (id : Nat)
  | namesQuery
deriving DecidableEq, Repr

/-- The tmux server: live sessions, the next fresh session ID, and the trace
of collaborator calls made so far. -/
structure TmuxServer where
  live : List SessionState
  nextId : Nat
  calls : List TmuxCall
deriving DecidableEq, Repr

def TmuxServer.liveIds (srv : TmuxServer) : List Nat := srv.live.map SessionState.id

/-- Behaviour oracle for one engine operation: which collaborator calls fail
(`Option String` is Go's `error`), what the repository collaborator answers,
which repository a directory probe resolves to, and the currently attached
session. -/
structure Env where
  probe : String → Except String (Option Repository)
  newSessionErr : String → String → Option String
  renameErr : Nat → String → Option String
  killErr : Nat → Option String
  namesQueryErr : Option String
  list : Repository → Except String (List String)
  wuExists : Repository → String → Except String Bool
  current : Option Nat

/-- `Server.NewSession(opts)`: fresh ID, session appended with the requested
name and start directory. -/
def TmuxServer.newSessionOp (srv : TmuxServer) (env : Env) (name dir : String) :
    Except String Session × TmuxServer :=
  let srv' := { srv with calls := srv.calls ++ [TmuxCall.newSession name dir] }
  match env.newSessionErr name dir with
  | some e => (.error e, srv')
  | none =>
      (.ok ⟨srv.nextId⟩,
        { srv' with live := srv.live ++ [⟨srv.nextId, name, dir⟩],
                    nextId := srv.nextId + 1 })

/-- `Session.Rename(name)`. -/
def TmuxServer.renameOp (srv : TmuxServer) (env : Env) (id : Nat) (name : String) :
    Except String Unit × TmuxServer :=
  let srv' := { srv with calls := srv.calls ++ [TmuxCall.rename id name] }
  match env.renameErr id name with
  | some e => (.error e, srv')
  | none =>
      (.ok (),
        { srv' with live := srv.live.map (fun s => if s.id = id then { s with name := name } else s) })

/-- `Session.Kill()`. -/
def TmuxServer.killOp (srv : TmuxServer) (env : Env) (id : Nat) :
    Except String Unit × TmuxServer :=
  let srv' := { srv with calls := srv.calls ++ [TmuxCall.kill id] }
  match env.killErr id with
  | some e => (.error e, srv')
  | none => (.ok (), { srv' with live := srv.live.filter (fun s => s.id != id) })

/-- `Sessions.Property(SessionName)` on the handle captured at construction
time: a live `list-sessions` query filtered to the handle's IDs.  Sessions
outside the handle (or no longer live) are simply absent from the result, so
indexing the returned Go map yields `""` for them.  An empty handle runs no
command at all (`Properties` returns `nil, nil`). -/
def snapshotNames (srv : TmuxServer) (handle : List Nat) : Nat → String :=
  fun id =>
    if handle.contains id then
      match srv.live.find? (fun s => s.id == id) with
      | some s => s.name
      | none => ""
    else ""

/-- The names query, as a server operation (an empty handle runs no command
at all, since `Properties` returns `nil, nil` for an empty batch). -/
def TmuxServer.namesQueryOp (srv : TmuxServer) (env : Env) (handle : List Nat) :
    Except String (Nat → String) × TmuxServer :=
  if handle.isEmpty then (.ok (fun _ => ""), srv)
  else
    let srv' := { srv with calls := srv.calls ++ [TmuxCall.namesQuery] }
    match env.namesQueryErr with
    | some e => (.error e, srv')
    | none => (.ok (snapshotNames srv handle), srv')

/-! ### The reconciliation state engine (`state.State`) -/

/-- `state.workUnit` (the value type of `sessionsByID`). -/
structure workUnit where
  repo : Repository
  workUnitName : String
deriving DecidableEq, Repr

/-- `state.State`.  `sessions` is the `tmux.Sessions` batch handle captured by
`New` (it is never updated afterwards). -/
structure State where
  sessions : List Nat
  sessionsByName : List (WorkUnitName × Session)
  sessionsByID : List (Nat × workUnit)
  unqualifiedRepos : List (String × Int)
  repos : List (RepoName × Repository)
  unknownSessions : List (String × Session)
deriving DecidableEq, Repr

/-- `State.SessionName`: the display-name policy. -/
def State.SessionName (st : State) (n : WorkUnitName) : String :=
  if st.unqualifiedRepos.length > 1 ∨
      (st.unqualifiedRepos.length = 1 ∧ mfindD st.unqualifiedRepos n.Repo 0 = 0) then
    n.RepoString
  else
    n.WorkUnitString

/-- Go's `%q` on the names appearing in the engine's error messages. -/
def goQuote (s : String) : String := "\"" ++ s ++ "\""

/-- `errors.Join`: `nil` for no errors, otherwise the newline join. -/
def joinErrors : List String → Option String
  | [] => none
  | e :: rest => some (String.intercalate "\n" (e :: rest))

/-- The work-unit name a session of `New`'s snapshot resolves to: `none` when
its directory probe errors or resolves to no repository. -/
def probedName (env : Env) (s : SessionState) : Option WorkUnitName :=
  match env.probe s.path with
  | .ok (some repo) => some (ParseSessionName repo s.name)
  | _ => none

/-- The per-session indexing loop of `state.New` (steps 5-7 of construction).
A directory whose probe errors is logged and skipped (its sessions are not
indexed anywhere); a directory with no repository sends its sessions to
`unknownSessions`; otherwise the session is parsed and indexed.  The Go code
probes each distinct directory once and concurrently; since the probe is a
function of the path, processing sessions in snapshot order with a
memoised probe is one of the schedules the Go code can produce. -/
def buildState (env : Env) : List SessionState → State → State
  | [], st => st
  | s :: rest, st =>
    match env.probe s.path with
    | .error _ => buildState env rest st
    | .ok none =>
        buildState env rest
          { st with unknownSessions := minsert st.unknownSessions s.name ⟨s.id⟩ }
    | .ok (some repo) =>
        let parsed := ParseSessionName repo s.name
        buildState env rest
          { st with
            repos := minsert st.repos (NewRepoName repo) repo,
            sessionsByName := minsert st.sessionsByName parsed ⟨s.id⟩,
            sessionsByID := minsert st.sessionsByID s.id ⟨repo, parsed.WorkUnit⟩,
            unqualifiedRepos :=
              minsert st.unqualifiedRepos parsed.Repo (mfindD st.unqualifiedRepos parsed.Repo 0 + 1) }

/-- `state.New` (assuming the two initial batch queries succeed; if either
fails no engine exists at all). -/
def New (srv : TmuxServer) (env : Env) : State :=
  buildState env srv.live
    { sessions := srv.liveIds, sessionsByName := [], sessionsByID := [],
      unqualifiedRepos := [], repos := [], unknownSessions := [] }

/-- The rename loop of `State.updateSessionNames`: collects individual rename
errors and keeps going. -/
def renameLoop (env : Env) (st : State) (names : Nat → String) :
    List (WorkUnitName × Session) → TmuxServer → List String × TmuxServer
  | [], srv => ([], srv)
  | p :: rest, srv =>
    if names p.2.id ≠ st.SessionName p.1 then
      match srv.renameOp env p.2.id (st.SessionName p.1) with
      | (.error e, srv') =>
          let r := renameLoop env st names rest srv'
          (e :: r.1, r.2)
      | (.ok _, srv') => renameLoop env st names rest srv'
    else renameLoop env st names rest srv

/-- `State.updateSessionNames`. -/
def State.updateSessionNames (st : State) (srv : TmuxServer) (env : Env) :
    Except String Unit × TmuxServer :=
  match srv.namesQueryOp env st.sessions with
  | (.error e, srv') => (.error ("could not resolve session names: " ++ e), srv')
  | (.ok names, srv') =>
      let r := renameLoop env st names st.sessionsByName srv'
      (match joinErrors r.1 with
       | none => .ok ()
       | some e => .error e, r.2)

/-- `State.NewSession`. -/
def State.NewSession (st : State) (srv : TmuxServer) (env : Env)
    (repo : Repository) (workUnitName : String) :
    Except String Session × TmuxServer × State :=
  let name := NewWorkUnitName repo workUnitName
  let n := st.SessionName name
  match mlookup st.sessionsByName name with
  | some _ => (.error ("tmux session " ++ goQuote n ++ " already exists"), srv, st)
  | none =>
    match srv.newSessionOp env n repo.rootDir with
    | (.error e, srv') =>
        (.error ("failed to create tmux session " ++ goQuote n ++ ": " ++ e), srv', st)
    | (.ok sesh, srv') =>
        let st' := { st with
          sessionsByName := minsert st.sessionsByName name sesh,
          sessionsByID := minsert st.sessionsByID sesh.id ⟨repo, name.WorkUnit⟩,
          unqualifiedRepos :=
            minsert st.unqualifiedRepos name.Repo (mfindD st.unqualifiedRepos name.Repo 0 + 1),
          repos := minsert st.repos name.repoName repo }
        let r := st'.updateSessionNames srv' env
        (.ok sesh, r.2, st')

/-- `State.RenameSession`. -/
def State.RenameSession (st : State) (srv : TmuxServer) (env : Env)
    (repo : Repository) (old new : String) : Except String Unit × TmuxServer × State :=
  let oldName := ParseSessionName repo old
  match mlookup st.sessionsByName oldName with
  | none =>
      (.error ("tmux session " ++ goQuote (st.SessionName oldName) ++ " does not exist"), srv, st)
  | some sesh =>
    let newName := NewWorkUnitName repo new
    match mlookup st.sessionsByName newName with
    | some _ =>
        (.error ("tmux session " ++ goQuote (st.SessionName newName) ++ " already exists"), srv, st)
    | none =>
      match srv.renameOp env sesh.id (st.SessionName newName) with
      | (.error e, srv') => (.error e, srv', st)
      | (.ok _, srv') =>
          let st' := { st with
            sessionsByName := minsert (merase st.sessionsByName oldName) newName sesh,
            sessionsByID := minsert st.sessionsByID sesh.id ⟨repo, newName.WorkUnit⟩ }
          let r := st'.updateSessionNames srv' env
          (.ok (), r.2, st')

/-- The per-candidate removal performed by `State.PruneSessions` after a
successful kill: delete from both indexes, decrement the unqualified-repo
count, and drop the repo entirely when its count reaches zero. -/
def State.removeSession (st : State) (n : WorkUnitName) (seshId : Nat) : State :=
  let uq := minsert st.unqualifiedRepos n.Repo (mfindD st.unqualifiedRepos n.Repo 0 - 1)
  if mfindD uq n.Repo 0 = 0 then
    { st with sessionsByName := merase st.sessionsByName n,
              sessionsByID := merase st.sessionsByID seshId,
              unqualifiedRepos := merase uq n.Repo,
              repos := merase st.repos n.repoName }
  else
    { st with sessionsByName := merase st.sessionsByName n,
              sessionsByID := merase st.sessionsByID seshId,
              unqualifiedRepos := uq }

/-- The ordered removal candidates of `State.PruneSessions`: indexed sessions
whose repo listed successfully but does not contain their work unit, with the
currently attached session (if any) sorted last.  `slices.SortFunc` with the
`FalseFirst` comparator only constrains current-vs-non-current order; the
model keeps the (arbitrary) pre-sort order within each class. -/
def State.pruneCandidates (st : State) (env : Env) : List (WorkUnitName × Session) :=
  let errRepos := st.repos.filterMap (fun p =>
    match env.list p.2 with | .error _ => some p.1 | .ok _ => none)
  let validWorkUnits := (st.repos.filterMap (fun p =>
    match env.list p.2 with
    | .ok wus => some (wus.map (NewWorkUnitName p.2))
    | .error _ => none)).flatten
  let invalid := st.sessionsByName.filter (fun p =>
    decide (p.1.repoName ∉ errRepos ∧ p.1 ∉ validWorkUnits))
  match env.current with
  | none => invalid
  | some curId =>
      invalid.filter (fun p => decide (p.2.id ≠ curId)) ++
        invalid.filter (fun p => decide (p.2.id = curId))

/-- The kill loop of `State.PruneSessions`: kills candidates in order, undoing
the index entries of each successfully killed session; a kill failure aborts
immediately (already-applied removals stay applied). -/
def killLoop (env : Env) : List (WorkUnitName × Session) → TmuxServer → State →
    Except String Unit × TmuxServer × State
  | [], srv, st =>
      let r := st.updateSessionNames srv env
      (.ok (), r.2, st)
  | p :: rest, srv, st =>
      match srv.killOp env p.2.id with
      | (.error e, srv') => (.error e, srv', st)
      | (.ok _, srv') => killLoop env rest srv' (st.removeSession p.1 p.2.id)

/-- `State.PruneSessions`. -/
def State.PruneSessions (st : State) (srv : TmuxServer) (env : Env) :
    Except String Unit × TmuxServer × State :=
  killLoop env (st.pruneCandidates env) srv st

/-! ### Repository lookup (`api.MaybeFindRepository`, `State.MaybeFindRepository`) -/

/-- The generic `api.MaybeFindRepository`: apply `fn` to every element,
collecting yielded repositories and errors.  Exactly one repository: return
it (errors only logged).  None: return the joined errors (Go `nil` when there
were none).  Several: an ambiguity error naming every match as `vcs:name`. -/
def MaybeFindRepositoryGo {α : Type} (elems : List α)
    (fn : α → Except String (Option Repository)) : Except String (Option Repository) :=
  let repos := elems.filterMap (fun e => match fn e with | .ok r => r | .error _ => none)
  let errs := elems.filterMap (fun e => match fn e with | .error m => some m | .ok _ => none)
  match repos with
  | [repo] => .ok (some repo)
  | [] =>
      (match joinErrors errs with
       | none => .ok none
       | some e => .error e)
  | _ => .error ("multiple Repositories match: " ++
      String.intercalate ", " (repos.map (fun r => r.vcsName ++ ":" ++ r.name)))

/-- The candidate-testing step shared by all three cases of
`State.MaybeFindRepository`, including its `"work unit %v: %w"` wrapping. -/
def maybeFindStep2 (env : Env) (n : WorkUnitName) (repos : List Repository) :
    Except String (Option Repository) :=
  match MaybeFindRepositoryGo repos (fun repo =>
    match env.wuExists repo n.WorkUnit with
    | .error e => .error e
    | .ok false => .ok none
    | .ok true => .ok (some repo)) with
  | .error e => .error ("work unit " ++ n.toString ++ ": " ++ e)
  | .ok r => .ok r

/-- `State.MaybeFindRepository`. -/
def State.MaybeFindRepository (st : State) (env : Env) (n : WorkUnitName) :
    Except String (Option Repository) :=
  if n.VCS ≠ "" then
    if n.Repo = "" then
      .error ("WorkUnitName has VCS set, but not Repo: " ++ n.toString)
    else
      match mlookup st.repos n.repoName with
      | none => .ok none
      | some repo => maybeFindStep2 env n [repo]
  else if n.Repo ≠ "" then
    maybeFindStep2 env n
      (st.repos.filterMap (fun p => if n.Repo = p.1.Repo then some p.2 else none))
  else
    maybeFindStep2 env n (st.repos.map Prod.snd)

/-! ### Reachability: `New` followed by mutating operations -/

/-- One mutating engine call, with its own behaviour oracle (so each call may
independently succeed or fail). -/
inductive Op where
  | newSession (env : Env) (repo : Repository) (workUnitName : String)
  | renameSession (env : Env) (repo : Repository) (old new : String)
  | pruneSessions (env : Env)

/-- Applying one call to the (server, engine) pair, keeping whatever the call
left behind whether it succeeded or failed. -/
def applyOp (w : TmuxServer × State) : Op → TmuxServer × State
  | .newSession env repo wu => (w.2.NewSession w.1 env repo wu).2
  | .renameSession env repo old new => (w.2.RenameSession w.1 env repo old new).2
  | .pruneSessions env => (w.2.PruneSessions w.1 env).2

/-- Running a sequence of mutating calls. -/
def runOps (w : TmuxServer × State) (ops : List Op) : TmuxServer × State :=
  ops.foldl applyOp w

/-- The candidate repositories `State.MaybeFindRepository` tests with
`Exists`, by the three cases on how qualified `n` is.  (When `n` has a VCS
but no repo name the operation rejects the input before examining any
candidate, hence no candidates.) -/
def State.findCandidates (st : State) (n : WorkUnitName) : List Repository :=
  if n.VCS ≠ "" then
    if n.Repo = "" then []
    else
      match mlookup st.repos n.repoName with
      | none => []
      | some repo => [repo]
  else if n.Repo ≠ "" then
    st.repos.filterMap (fun p => if n.Repo = p.1.Repo then some p.2 else none)
  else st.repos.map Prod.snd

/-- The positive `Exists` answers among the candidates. -/
def State.positiveCandidates (st : State) (env : Env) (n : WorkUnitName) : List Repository :=
  (st.findCandidates n).filter (fun repo =>
    match env.wuExists repo n.WorkUnit with
    | .ok true => true
    | _ => false)

/-- The errors returned by `Exists` among the candidates. -/
def State.candidateErrors (st : State) (env : Env) (n : WorkUnitName) : List String :=
  (st.findCandidates n).filterMap (fun repo =>
    match env.wuExists repo n.WorkUnit with
    | .error e => some e
    | .ok _ => none)

/-! ### Claim-level notions -/

def TmuxCall.isKill : TmuxCall → Bool
  | .kill _ => true
  | _ => false

def TmuxCall.isRename : TmuxCall → Bool
  | .rename _ _ => true
  | _ => false

/-- The number of `rename-session` invocations in a call trace. -/
def renameCallCount (calls : List TmuxCall) : Nat :=
  calls.countP TmuxCall.isRename

/-- The calls a run appended to a server whose trace previously was `old`. -/
def callsAppended (old : List TmuxCall) (srv : TmuxServer) : List TmuxCall :=
  srv.calls.drop old.length

/-- The current display name of a live session, if it is live. -/
def TmuxServer.liveName (srv : TmuxServer) (id : Nat) : Option String :=
  (srv.live.find? (fun s => s.id == id)).map SessionState.name

/-- What a real tmux server guarantees about any reachable server state:
distinct session IDs, all below the next fresh ID. -/
def ServerWf (srv : TmuxServer) : Prop :=
  srv.liveIds.Nodup ∧ ∀ i ∈ srv.liveIds, i < srv.nextId

/-- The number of indexed sessions whose unqualified repo name is `r`
(what `unqualifiedRepos[r]` is meant to count). -/
def State.countRepo (st : State) (r : String) : Nat :=
  st.sessionsByName.countP (fun p => decide (p.1.Repo = r))

/-- The distinct unqualified repo names currently represented among the
indexed sessions. -/
def State.representedRepos (st : State) : List String :=
  (st.sessionsByName.map (fun p => p.1.Repo)).dedup

/-- Mutual consistency of the two indexes: every `sessionsByName` entry has a
matching `sessionsByID` entry under its session's ID carrying a repository
with the entry's `RepoName` identity and its work unit; every `sessionsByID`
entry is the image of exactly one `sessionsByName` entry; and no
`WorkUnitName` maps to two different sessions. -/
def Consistent (st : State) : Prop :=
  (∀ p ∈ st.sessionsByName, ∃ wu, mlookup st.sessionsByID p.2.id = some wu ∧
      NewRepoName wu.repo = p.1.repoName ∧ wu.workUnitName = p.1.WorkUnit) ∧
  (∀ q ∈ st.sessionsByID,
      st.sessionsByName.countP (fun p => decide (p.2.id = q.1 ∧
        NewRepoName q.2.repo = p.1.repoName ∧ q.2.workUnitName = p.1.WorkUnit)) = 1) ∧
  (∀ p ∈ st.sessionsByName, ∀ p' ∈ st.sessionsByName, p.1 = p'.1 → p.2 = p'.2)

/-- The inductive invariant tying the engine's five index structures to each
other and to the server: established by `New` (absent work-unit-name
collisions in the snapshot) and preserved by every mutating operation. -/
structure Inv (srv : TmuxServer) (st : State) : Prop where
  ndName : NodupKeys st.sessionsByName
  ndID : NodupKeys st.sessionsByID
  ndUq : NodupKeys st.unqualifiedRepos
  fwd : ∀ p ∈ st.sessionsByName, ∃ wu, mlookup st.sessionsByID p.2.id = some wu ∧
      NewRepoName wu.repo = p.1.repoName ∧ wu.workUnitName = p.1.WorkUnit
  bwd : ∀ q ∈ st.sessionsByID, ∃ p, p ∈ st.sessionsByName ∧ p.2.id = q.1
  injIds : ∀ p ∈ st.sessionsByName, ∀ p' ∈ st.sessionsByName, p.2.id = p'.2.id → p = p'
  counts : ∀ r, mlookup st.unqualifiedRepos r =
      if st.countRepo r = 0 then none else some (st.countRepo r : Int)
  idsLive : ∀ p ∈ st.sessionsByName, p.2.id ∈ srv.liveIds
  wf : ServerWf srv

/-! ### Concrete fixtures used by witnesses and counterexamples -/

/-- An oracle where every collaborator call succeeds and nothing exists. -/
def noopEnv : Env :=
  { probe := fun _ => .ok none,
    newSessionErr := fun _ _ => none,
    renameErr := fun _ _ => none,
    killErr := fun _ => none,
    namesQueryErr := none,
    list := fun _ => .ok [],
    wuExists := fun _ _ => .ok false,
    current := none }

/-- A git repository named `repo` rooted at `testing/repo`. -/
def repoFix : Repository := ⟨"git", "repo", "testing/repo"⟩

/-- An oracle that resolves `testing/repo` to `repoFix`. -/
def probeEnv : Env :=
  { noopEnv with probe := fun d => if d = "testing/repo" then .ok (some repoFix) else .ok none }

/-- An oracle whose directory probe always fails. -/
def probeErrEnv : Env :=
  { noopEnv with probe := fun _ => .error "probe failed" }

/-- An oracle whose `Exists` check always fails. -/
def existsErrEnv : Env :=
  { noopEnv with wuExists := fun _ _ => .error "exists failed" }

/-- A server whose two sessions `foo` and `repo>foo` (both under
`testing/repo`) parse to the same `WorkUnitName`. -/
def dupSrv : TmuxServer :=
  ⟨[⟨0, "foo", "testing/repo"⟩, ⟨1, "repo>foo", "testing/repo"⟩], 2, []⟩

/-- A server with a single session `foo` under the repository directory. -/
def fooSrv : TmuxServer := ⟨[⟨0, "foo", "testing/repo"⟩], 1, []⟩

/-- A server with sessions `foo` and `bar` under the repository directory. -/
def fooBarSrv : TmuxServer :=
  ⟨[⟨0, "foo", "testing/repo"⟩, ⟨1, "bar", "testing/repo"⟩], 2, []⟩

/-- A server with sessions `a`, `b`, `c` under the repository directory. -/
def pruneSrv : TmuxServer :=
  ⟨[⟨0, "a", "testing/repo"⟩, ⟨1, "b", "testing/repo"⟩, ⟨2, "c", "testing/repo"⟩], 3, []⟩

/-- An engine indexing work units `a`, `b`, `c` of `repoFix`. -/
def pruneSt : State :=
  { sessions := [0, 1, 2],
    sessionsByName := [(NewWorkUnitName repoFix "a", ⟨0⟩),
      (NewWorkUnitName repoFix "b", ⟨1⟩), (NewWorkUnitName repoFix "c", ⟨2⟩)],
    sessionsByID := [(0, ⟨repoFix, "a"⟩), (1, ⟨repoFix, "b"⟩), (2, ⟨repoFix, "c"⟩)],
    unqualifiedRepos := [("repo", 3)],
    repos := [(NewRepoName repoFix, repoFix)],
    unknownSessions := [] }

/-- An oracle whose repository listing reports exactly `{a, c}`. -/
def pruneEnv : Env :=
  { noopEnv with list := fun _ => .ok ["a", "c"] }

/-- A server with no sessions. -/
def emptySrv : TmuxServer := ⟨[], 0, []⟩

/-- The engine obtained by `New` on the empty server followed by
`NewSession(repoFix, "wu")`: its index holds one session that is absent from
the construction-time snapshot handle. -/
def c9St : State :=
  ((New emptySrv probeEnv).NewSession emptySrv probeEnv repoFix "wu").2.2

/-- The server after that `NewSession`. -/
def c9Srv : TmuxServer :=
  ((New emptySrv probeEnv).NewSession emptySrv probeEnv repoFix "wu").2.1

/-- First display-name fixup run on that engine. -/
def c9run1 : Except String Unit × TmuxServer :=
  c9St.updateSessionNames c9Srv probeEnv

/-- Second fixup run, with no intervening mutation. -/
def c9run2 : Except String Unit × TmuxServer :=
  c9St.updateSessionNames c9run1.2 probeEnv

/-! ## Lemmas -/

/-! ### Association-list lemmas -/

theorem mlookup_cons (p : K × V) (rest : List (K × V)) (k : K) :
    mlookup (p :: rest) k = if p.1 = k then some p.2 else mlookup rest k := rfl

theorem merase_cons (p : K × V) (rest : List (K × V)) (k : K) :
    merase (p :: rest) k = if p.1 = k then merase rest k else p :: merase rest k := rfl

theorem mem_merase {m : List (K × V)} {k : K} {p : K × V} :
    p ∈ merase m k ↔ p ∈ m ∧ p.1 ≠ k := by
  induction m with
  | nil => simp [merase]
  | cons q rest ih =>
    by_cases h : q.1 = k
    · simp only [merase, if_pos h, ih, List.mem_cons]
      constructor
      · rintro ⟨hp, hne⟩; exact ⟨Or.inr hp, hne⟩
      · rintro ⟨hp | hp, hne⟩
        · subst hp; exact absurd h hne
        · exact ⟨hp, hne⟩
    · simp only [merase, if_neg h, List.mem_cons, ih]
      constructor
      · rintro (hp | ⟨hp, hne⟩)
        · subst hp; exact ⟨Or.inl rfl, h⟩
        · exact ⟨Or.inr hp, hne⟩
      · rintro ⟨hp | hp, hne⟩
        · exact Or.inl hp
        · exact Or.inr ⟨hp, hne⟩

theorem mem_minsert {m : List (K × V)} {k : K} {v : V} {p : K × V} :
    p ∈ minsert m k v ↔ p = (k, v) ∨ (p ∈ m ∧ p.1 ≠ k) := by
  simp [minsert, mem_merase]

theorem mlookup_merase_self (m : List (K × V)) (k : K) :
    mlookup (merase m k) k = none := by
  induction m with
  | nil => rfl
  | cons q rest ih =>
    by_cases h : q.1 = k
    · simpa [merase, if_pos h]
    · simp [merase, if_neg h, mlookup, ih, h]

theorem mlookup_merase_ne (m : List (K × V)) {k k' : K} (h : k' ≠ k) :
    mlookup (merase m k) k' = mlookup m k' := by
  induction m with
  | nil => rfl
  | cons q rest ih =>
    by_cases hq : q.1 = k
    · have hq' : q.1 ≠ k' := by rw [hq]; exact fun hk => h hk.symm
      simp [merase, if_pos hq, mlookup, hq', ih]
    · by_cases hq' : q.1 = k'
      · rw [merase_cons, if_neg hq, mlookup_cons, if_pos hq', mlookup_cons, if_pos hq']
      · rw [merase_cons, if_neg hq, mlookup_cons, if_neg hq', mlookup_cons, if_neg hq', ih]

theorem mlookup_minsert_self (m : List (K × V)) (k : K) (v : V) :
    mlookup (minsert m k v) k = some v := by
  simp [minsert, mlookup]

theorem mlookup_minsert_ne (m : List (K × V)) {k k' : K} (v : V) (h : k' ≠ k) :
    mlookup (minsert m k v) k' = mlookup m k' := by
  have : k ≠ k' := fun hk => h hk.symm
  simp [minsert, mlookup, this, mlookup_merase_ne m h]

theorem mlookup_eq_none_iff {m : List (K × V)} {k : K} :
    mlookup m k = none ↔ ∀ p ∈ m, p.1 ≠ k := by
  induction m with
  | nil => simp [mlookup]
  | cons q rest ih =>
    by_cases h : q.1 = k
    · simp [mlookup, h]
    · simp [mlookup, h, ih]

theorem merase_eq_self_of_mlookup_none {m : List (K × V)} {k : K}
    (h : mlookup m k = none) : merase m k = m := by
  induction m with
  | nil => rfl
  | cons q rest ih =>
    rw [mlookup_cons] at h
    by_cases hq : q.1 = k
    · simp [hq] at h
    · rw [if_neg hq] at h
      simp [merase, hq, ih h]

theorem mem_of_mlookup_eq_some {m : List (K × V)} {k : K} {v : V}
    (h : mlookup m k = some v) : (k, v) ∈ m := by
  induction m with
  | nil => simp [mlookup] at h
  | cons q rest ih =>
    rw [mlookup_cons] at h
    by_cases hq : q.1 = k
    · rw [if_pos hq] at h
      cases q with
      | mk a b =>
        subst hq
        injection h with h
        subst h
        exact List.mem_cons_self _ _
    · rw [if_neg hq] at h
      exact List.mem_cons_of_mem _ (ih h)

theorem nodupKeys_merase (m : List (K × V)) (k : K) (h : NodupKeys m) :
    NodupKeys (merase m k) := by
  induction m with
  | nil => exact h
  | cons q rest ih =>
    unfold NodupKeys mkeys at h ⊢
    simp only [List.map_cons, List.nodup_cons] at h
    by_cases hq : q.1 = k
    · rw [merase, if_pos hq]; exact ih h.2
    · rw [merase, if_neg hq]
      simp only [List.map_cons, List.nodup_cons]
      refine ⟨fun hmem => ?_, ih h.2⟩
      have : q.1 ∈ mkeys rest := by
        rcases List.mem_map.mp hmem with ⟨p, hp, hpk⟩
        exact List.mem_map.mpr ⟨p, (mem_merase.mp hp).1, hpk⟩
      exact h.1 this

theorem nodupKeys_minsert (m : List (K × V)) (k : K) (v : V) (h : NodupKeys m) :
    NodupKeys (minsert m k v) := by
  unfold NodupKeys mkeys minsert
  simp only [List.map_cons, List.nodup_cons]
  refine ⟨fun hmem => ?_, nodupKeys_merase m k h⟩
  rcases List.mem_map.mp hmem with ⟨p, hp, hpk⟩
  exact (mem_merase.mp hp).2 hpk

theorem mlookup_eq_some_of_mem {m : List (K × V)} (h : NodupKeys m) {p : K × V}
    (hp : p ∈ m) : mlookup m p.1 = some p.2 := by
  induction m with
  | nil => cases hp
  | cons q rest ih =>
    unfold NodupKeys mkeys at h
    simp only [List.map_cons, List.nodup_cons] at h
    rcases List.mem_cons.mp hp with hq | hq
    · subst hq; simp [mlookup]
    · have hne : q.1 ≠ p.1 := by
        intro he
        exact h.1 (he ▸ List.mem_map.mpr ⟨p, hq, rfl⟩)
      rw [mlookup_cons, if_neg hne]
      exact ih h.2 hq

theorem eq_of_mem_of_mem_nodupKeys {m : List (K × V)} (h : NodupKeys m)
    {p q : K × V} (hp : p ∈ m) (hq : q ∈ m) (hk : p.1 = q.1) : p = q := by
  have h1 := mlookup_eq_some_of_mem h hp
  have h2 := mlookup_eq_some_of_mem h hq
  rw [hk, h2] at h1
  cases p; cases q
  simp only at hk h1 ⊢
  cases h1
  exact congrArg₂ Prod.mk hk rfl

/-- Under `NodupKeys`, a map is (as a multiset of entries) its entry at `k`
consed onto the erasure of `k`. -/
theorem perm_cons_merase {m : List (K × V)} {k : K} {v : V}
    (hm : NodupKeys m) (h : (k, v) ∈ m) : m.Perm ((k, v) :: merase m k) := by
  induction m with
  | nil => cases h
  | cons q rest ih =>
    unfold NodupKeys mkeys at hm
    simp only [List.map_cons, List.nodup_cons] at hm
    rcases List.mem_cons.mp h with hq | hq
    · subst hq
      rw [merase_cons, if_pos rfl,
        merase_eq_self_of_mlookup_none (mlookup_eq_none_iff.mpr ?_)]
      · intro p hp he
        exact hm.1 (he ▸ List.mem_map.mpr ⟨p, hp, rfl⟩)
    · have hne : q.1 ≠ k := by
        intro he
        exact hm.1 (he ▸ List.mem_map.mpr ⟨(k, v), hq, rfl⟩)
      rw [merase_cons, if_neg hne]
      exact (List.Perm.cons q (ih hm.2 hq)).trans (List.Perm.swap _ _ _)


/-! ### Splitting lemmas -/

theorem splitGtChars_ne_nil (l : List Char) : splitGtChars l ≠ [] := by
  cases l with
  | nil => simp [splitGtChars]
  | cons c rest =>
    rw [splitGtChars]
    by_cases h : c = '>'
    · simp [h]
    · rw [if_neg h]
      cases splitGtChars rest <;> simp

theorem joinGtChars_splitGtChars (l : List Char) :
    joinGtChars (splitGtChars l) = l := by
  induction l with
  | nil => rfl
  | cons c rest ih =>
    rw [splitGtChars]
    by_cases h : c = '>'
    · rw [if_pos h]
      obtain ⟨p, ps, hp⟩ : ∃ p ps, splitGtChars rest = p :: ps := by
        cases hr : splitGtChars rest with
        | nil => exact absurd hr (splitGtChars_ne_nil rest)
        | cons p ps => exact ⟨p, ps, rfl⟩
      rw [hp]
      have : joinGtChars ([] :: p :: ps) = '>' :: joinGtChars (p :: ps) := rfl
      rw [this, ← hp, ih, h]
    · rw [if_neg h]
      cases hr : splitGtChars rest with
      | nil => exact absurd hr (splitGtChars_ne_nil rest)
      | cons p ps =>
        rw [hr] at ih
        cases ps with
        | nil =>
          have : joinGtChars [c :: p] = c :: p := rfl
          rw [this]
          have : joinGtChars [p] = p := rfl
          rw [this] at ih
          rw [ih]
        | cons q qs =>
          have h1 : joinGtChars ((c :: p) :: q :: qs) = (c :: p) ++ '>' :: joinGtChars (q :: qs) := rfl
          have h2 : joinGtChars (p :: q :: qs) = p ++ '>' :: joinGtChars (q :: qs) := rfl
          rw [h1]
          rw [h2] at ih
          simpa using ih

theorem splitGtChars_of_not_mem {l : List Char} (h : '>' ∉ l) :
    splitGtChars l = [l] := by
  induction l with
  | nil => rfl
  | cons c rest ih =>
    have hc : c ≠ '>' := fun he => h (he ▸ List.mem_cons_self c rest)
    have hrest : '>' ∉ rest := fun hm => h (List.mem_cons_of_mem c hm)
    rw [splitGtChars, if_neg hc, ih hrest]

theorem splitGtChars_append_gt {a : List Char} (rest : List Char) (h : '>' ∉ a) :
    splitGtChars (a ++ '>' :: rest) = a :: splitGtChars rest := by
  induction a with
  | nil => simp [splitGtChars]
  | cons c a' ih =>
    have hc : c ≠ '>' := fun he => h (he ▸ List.mem_cons_self c a')
    have ha' : '>' ∉ a' := fun hm => h (List.mem_cons_of_mem c hm)
    rw [List.cons_append, splitGtChars, if_neg hc, ih ha']


/-! ### Parsing lemmas -/

theorem ParseSessionName_repoName (repo : Repository) (s : String) :
    (ParseSessionName repo s).repoName = NewRepoName repo := by
  unfold ParseSessionName
  by_cases h : (ParseSessionNameWithoutKnownRepository s).repoName ≠ NewRepoName repo
  · rw [if_pos h]
  · rw [if_neg h]
    exact not_not.mp h

theorem ParseSessionName_WorkUnit (repo : Repository) (s : String) :
    (ParseSessionName repo s).WorkUnit =
      (ParseSessionNameWithoutKnownRepository s).WorkUnit := by
  unfold ParseSessionName
  by_cases h : (ParseSessionNameWithoutKnownRepository s).repoName ≠ NewRepoName repo
  · rw [if_pos h]
  · rw [if_neg h]

theorem ParseSessionName_Repo (repo : Repository) (s : String) :
    (ParseSessionName repo s).Repo = repo.name := by
  rw [WorkUnitName.Repo, ParseSessionName_repoName]; rfl


theorem joinGt_splitGt (s : String) : joinGt (splitGt s) = s := by
  unfold joinGt splitGt
  rw [List.map_map]
  have h : String.data ∘ String.mk = id := rfl
  rw [h, List.map_id, joinGtChars_splitGtChars]

theorem ParseSessionName_eq (repo : Repository) (s : String) :
    ParseSessionName repo s =
      ⟨NewRepoName repo, (ParseSessionNameWithoutKnownRepository s).WorkUnit⟩ := by
  have h1 := ParseSessionName_repoName repo s
  have h2 := ParseSessionName_WorkUnit repo s
  cases hp : ParseSessionName repo s with
  | mk rn wu =>
    rw [hp] at h1 h2
    exact congrArg₂ WorkUnitName.mk h1 h2

/-! ## Claims -/

/-- C8: `ParseSessionName(repo, s)` splits `s` on `">"` into at most 3 parts:
with zero delimiters the whole string is the work unit; with one delimiter the
first part is an unqualified repo-name hint and the second the work unit; with
two or more the first two parts are VCS and repo hints and the rest (any
further `">"`s included) is the work unit; and in every case the returned
`WorkUnitName` carries `repo`'s actual identity — a disagreeing hint is only
logged, never reflected in the result. -/
theorem C8_parse_session_name (repo : Repository) (s : String) :
    (ParseSessionName repo s).repoName = NewRepoName repo ∧
    (∀ a, splitGt s = [a] →
      a = s ∧ ParseSessionName repo s = ⟨NewRepoName repo, s⟩) ∧
    (∀ a b, splitGt s = [a, b] →
      ParseSessionNameWithoutKnownRepository s = ⟨⟨"", a⟩, b⟩ ∧
      ParseSessionName repo s = ⟨NewRepoName repo, b⟩) ∧
    (∀ a b c rest, splitGt s = a :: b :: c :: rest →
      ParseSessionNameWithoutKnownRepository s = ⟨⟨a, b⟩, joinGt (c :: rest)⟩ ∧
      ParseSessionName repo s = ⟨NewRepoName repo, joinGt (c :: rest)⟩) := by
  refine ⟨ParseSessionName_repoName repo s, ?_, ?_, ?_⟩
  · intro a h
    have ha : a = s := by
      calc a = joinGt [a] := rfl
        _ = joinGt (splitGt s) := by rw [h]
        _ = s := joinGt_splitGt s
    have hp : ParseSessionNameWithoutKnownRepository s = ⟨⟨"", ""⟩, a⟩ := by
      unfold ParseSessionNameWithoutKnownRepository goSplitN3
      rw [h]
    refine ⟨ha, ?_⟩
    rw [ParseSessionName_eq, hp, ha]
  · intro a b h
    have hp : ParseSessionNameWithoutKnownRepository s = ⟨⟨"", a⟩, b⟩ := by
      unfold ParseSessionNameWithoutKnownRepository goSplitN3
      rw [h]
    exact ⟨hp, by rw [ParseSessionName_eq, hp]⟩
  · intro a b c rest h
    have hp : ParseSessionNameWithoutKnownRepository s = ⟨⟨a, b⟩, joinGt (c :: rest)⟩ := by
      unfold ParseSessionNameWithoutKnownRepository goSplitN3
      rw [h]
    exact ⟨hp, by rw [ParseSessionName_eq, hp]⟩

/-- Witness for C8 at concrete inputs: a delimiter-free name, a
one-delimiter name, and a three-delimiter name. -/
theorem C8_parse_session_name_witness :
    ((ParseSessionName repoFix "foo").repoName = NewRepoName repoFix ∧
      "foo" = "foo" ∧ ParseSessionName repoFix "foo" = ⟨NewRepoName repoFix, "foo"⟩) ∧
    (ParseSessionNameWithoutKnownRepository "other>foo" = ⟨⟨"", "other"⟩, "foo"⟩ ∧
      ParseSessionName repoFix "other>foo" = ⟨NewRepoName repoFix, "foo"⟩) ∧
    (ParseSessionNameWithoutKnownRepository "git>repo>a>b" =
        ⟨⟨"git", "repo"⟩, joinGt ["a", "b"]⟩ ∧
      ParseSessionName repoFix "git>repo>a>b" = ⟨NewRepoName repoFix, joinGt ["a", "b"]⟩) :=
  ⟨⟨(C8_parse_session_name repoFix "foo").1,
      (C8_parse_session_name repoFix "foo").2.1 "foo" (by decide)⟩,
    (C8_parse_session_name repoFix "other>foo").2.2.1 "other" "foo" (by decide),
    (C8_parse_session_name repoFix "git>repo>a>b").2.2.2 "git" "repo" "a" ["b"] (by decide)⟩

/-- C10: a fully qualified `WorkUnitName` (nonempty VCS and Repo, neither
containing `">"`) round-trips through `String()` and
`ParseSessionNameWithoutKnownRepository`, even when the work unit itself
contains `">"` characters. -/
theorem C10_parse_roundtrip (n : WorkUnitName) (hv : n.VCS ≠ "") (hr : n.Repo ≠ "")
    (hvGt : '>' ∉ n.VCS.data) (hrGt : '>' ∉ n.Repo.data) :
    ParseSessionNameWithoutKnownRepository n.toString = n := by
  have hts : n.toString = n.VCS ++ ">" ++ n.Repo ++ ">" ++ n.WorkUnit := by
    rw [WorkUnitName.toString, if_pos hv]
  have hdata : (n.toString).data =
      n.VCS.data ++ '>' :: (n.Repo.data ++ '>' :: n.WorkUnit.data) := by
    rw [hts]
    simp only [String.data_append]
    simp [List.append_assoc]
  have hsplit : splitGtChars (n.toString).data =
      n.VCS.data :: n.Repo.data :: splitGtChars n.WorkUnit.data := by
    rw [hdata, splitGtChars_append_gt _ hvGt, splitGtChars_append_gt _ hrGt]
  obtain ⟨w, ws, hw⟩ : ∃ w ws, splitGtChars n.WorkUnit.data = w :: ws := by
    cases hx : splitGtChars n.WorkUnit.data with
    | nil => exact absurd hx (splitGtChars_ne_nil _)
    | cons w ws => exact ⟨w, ws, rfl⟩
  have hsgWU : splitGt n.WorkUnit = String.mk w :: ws.map String.mk := by
    unfold splitGt
    rw [hw]
    rfl
  have hsg : splitGt n.toString = n.VCS :: n.Repo :: String.mk w :: ws.map String.mk := by
    unfold splitGt
    rw [hsplit, hw]
    rfl
  have hjoin : joinGt (String.mk w :: ws.map String.mk) = n.WorkUnit := by
    rw [← hsgWU]
    exact joinGt_splitGt n.WorkUnit
  have hg3 : goSplitN3 n.toString = [n.VCS, n.Repo, n.WorkUnit] := by
    unfold goSplitN3
    rw [hsg]
    show [n.VCS, n.Repo, joinGt (String.mk w :: ws.map String.mk)] = _
    rw [hjoin]
  show (match goSplitN3 n.toString with
    | [a] => ({ repoName := { VCS := "", Repo := "" }, WorkUnit := a } : WorkUnitName)
    | [a, b] => { repoName := { VCS := "", Repo := a }, WorkUnit := b }
    | [a, b, c] => { repoName := { VCS := a, Repo := b }, WorkUnit := c }
    | _ => { repoName := { VCS := "", Repo := "" }, WorkUnit := n.toString }) = n
  rw [hg3]
  show ({ repoName := { VCS := n.VCS, Repo := n.Repo }, WorkUnit := n.WorkUnit } : WorkUnitName) = n
  cases n with
  | mk rn wu => cases rn; rfl

/-- Witness for C10: `git>repo>a>b` (work unit `a>b` containing `">"`). -/
theorem C10_parse_roundtrip_witness :
    ParseSessionNameWithoutKnownRepository
        (WorkUnitName.toString ⟨⟨"git", "repo"⟩, "a>b"⟩) = ⟨⟨"git", "repo"⟩, "a>b"⟩ :=
  C10_parse_roundtrip ⟨⟨"git", "repo"⟩, "a>b"⟩ (by decide) (by decide) (by decide) (by decide)

/-- C3: `NewSession` on an already-indexed work unit fails with the
already-exists error before invoking any terminal operation: the returned
server (including its call trace, so in particular no session-creation call
was made) and every index structure of the engine are exactly the inputs. -/
theorem C3_new_session_no_duplicate (st : State) (srv : TmuxServer) (env : Env)
    (repo : Repository) (w : String) (s : Session)
    (h : mlookup st.sessionsByName (NewWorkUnitName repo w) = some s) :
    st.NewSession srv env repo w =
      (.error ("tmux session " ++ goQuote (st.SessionName (NewWorkUnitName repo w)) ++
        " already exists"), srv, st) := by
  simp only [State.NewSession]
  rw [h]

/-- Witness for C3: creating `foo` twice; the second call fails and changes
nothing. -/
theorem C3_new_session_no_duplicate_witness :
    (New fooSrv probeEnv).NewSession fooSrv probeEnv repoFix "foo" =
      (.error ("tmux session " ++
          goQuote ((New fooSrv probeEnv).SessionName (NewWorkUnitName repoFix "foo")) ++
          " already exists"), fooSrv, New fooSrv probeEnv) :=
  C3_new_session_no_duplicate (New fooSrv probeEnv) fooSrv probeEnv repoFix "foo" ⟨0⟩
    (by decide)

/-- During construction, a session ID belonging to a directory whose probe
errored never enters any index structure: sessions already indexed avoid the
ID, and every remaining snapshot session carrying that ID has an erroring
probe, hence is skipped. -/
theorem buildState_avoids (env : Env) (target : Nat) (rest : List SessionState) :
    ∀ st : State,
    (∀ s' ∈ rest, s'.id = target → ∃ e, env.probe s'.path = .error e) →
    (∀ p ∈ st.sessionsByName, p.2.id ≠ target) →
    (∀ q ∈ st.sessionsByID, q.1 ≠ target) →
    (∀ u ∈ st.unknownSessions, u.2.id ≠ target) →
    (∀ p ∈ (buildState env rest st).sessionsByName, p.2.id ≠ target) ∧
    (∀ q ∈ (buildState env rest st).sessionsByID, q.1 ≠ target) ∧
    (∀ u ∈ (buildState env rest st).unknownSessions, u.2.id ≠ target) := by
  induction rest with
  | nil => exact fun st _ h1 h2 h3 => ⟨h1, h2, h3⟩
  | cons s rest ih =>
    intro st hr h1 h2 h3
    have hrest : ∀ s' ∈ rest, s'.id = target → ∃ e, env.probe s'.path = .error e :=
      fun s' hs' => hr s' (List.mem_cons_of_mem s hs')
    cases hp : env.probe s.path with
    | error e =>
        simp only [buildState, hp]
        exact ih st hrest h1 h2 h3
    | ok oR =>
      have hsid : s.id ≠ target := by
        intro he
        rcases hr s (List.mem_cons_self s rest) he with ⟨e, hpe⟩
        rw [hp] at hpe
        cases hpe
      cases oR with
      | none =>
          simp only [buildState, hp]
          refine ih _ hrest h1 h2 ?_
          intro u hu
          rcases mem_minsert.mp hu with he | ⟨hin, _⟩
          · rw [he]; exact hsid
          · exact h3 u hin
      | some repo =>
          simp only [buildState, hp]
          refine ih _ hrest ?_ ?_ h3
          · intro p hpm
            rcases mem_minsert.mp hpm with he | ⟨hin, _⟩
            · rw [he]; exact hsid
            · exact h1 p hin
          · intro q hq
            rcases mem_minsert.mp hq with he | ⟨hin, _⟩
            · rw [he]; exact hsid
            · exact h2 q hin

/-- C7 (corrected): when the repository probe for some directory errors,
construction still succeeds and the error is only logged — but the sessions
of that directory are dropped entirely: they are indexed nowhere, not even in
`unknownSessions` (unlike sessions of a directory where no repository kind
matched).  In the model `New` is total, so "construction succeeds" is
immediate; this theorem states where the errored directory's sessions end up. -/
theorem C7_probe_error_sessions_dropped (srv : TmuxServer) (env : Env)
    (s : SessionState) (hs : s ∈ srv.live) (hids : srv.liveIds.Nodup)
    (herr : ∃ e, env.probe s.path = .error e) :
    (∀ p ∈ (New srv env).sessionsByName, p.2.id ≠ s.id) ∧
    (∀ q ∈ (New srv env).sessionsByID, q.1 ≠ s.id) ∧
    (∀ u ∈ (New srv env).unknownSessions, u.2.id ≠ s.id) := by
  unfold New
  refine buildState_avoids env s.id srv.live _ ?_ ?_ ?_ ?_
  · intro s' hs' hid
    have he : s' = s := List.inj_on_of_nodup_map hids hs' hs hid
    rw [he]
    exact herr
  · intro p hp; cases hp
  · intro q hq; cases hq
  · intro u hu; cases hu

/-- Witness for C7 at a concrete server: one session under a directory whose
probe errors ends up in no index structure. -/
theorem C7_probe_error_sessions_dropped_witness :
    (∀ p ∈ (New fooSrv probeErrEnv).sessionsByName, p.2.id ≠ 0) ∧
    (∀ q ∈ (New fooSrv probeErrEnv).sessionsByID, q.1 ≠ 0) ∧
    (∀ u ∈ (New fooSrv probeErrEnv).unknownSessions, u.2.id ≠ 0) :=
  C7_probe_error_sessions_dropped fooSrv probeErrEnv ⟨0, "foo", "testing/repo"⟩
    (by decide) (by decide) ⟨"probe failed", rfl⟩

/-- Counterexample to C7 as stated: the claim says sessions of an
error-probed directory are inserted into `unknownSessions` keyed by their
display name, like sessions of a no-repository directory.  In fact `New`
leaves `unknownSessions` (and everything else) empty for them: the session
`"foo"` is nowhere. -/
theorem C7_counterexample :
    mlookup (New fooSrv probeErrEnv).unknownSessions "foo" = none ∧
    (New fooSrv probeErrEnv).unknownSessions = [] ∧
    (New fooSrv probeErrEnv).sessionsByName = [] := by
  exact ⟨rfl, rfl, rfl⟩

/-- Inside `maybeFindStep2`, the repositories collected by the generic
`MaybeFindRepositoryGo` are exactly the candidates whose `Exists` answered
`true`. -/
theorem step2_repos_eq (env : Env) (n : WorkUnitName) (cands : List Repository) :
    (cands.filterMap (fun repo =>
      match (match env.wuExists repo n.WorkUnit with
        | .error e => .error e
        | .ok false => .ok none
        | .ok true => .ok (some repo) : Except String (Option Repository)) with
      | .ok r => r
      | .error _ => none)) =
    cands.filter (fun repo =>
      match env.wuExists repo n.WorkUnit with
      | .ok true => true
      | _ => false) := by
  induction cands with
  | nil => rfl
  | cons c rest ih =>
    cases hc : env.wuExists c n.WorkUnit with
    | error e => simp [List.filterMap_cons, List.filter_cons, hc, ih]
    | ok b => cases b <;> simp [List.filterMap_cons, List.filter_cons, hc, ih]

/-- Inside `maybeFindStep2`, the errors collected by the generic
`MaybeFindRepositoryGo` are exactly the candidates' `Exists` errors. -/
theorem step2_errs_eq (env : Env) (n : WorkUnitName) (cands : List Repository) :
    (cands.filterMap (fun repo =>
      match (match env.wuExists repo n.WorkUnit with
        | .error e => .error e
        | .ok false => .ok none
        | .ok true => .ok (some repo) : Except String (Option Repository)) with
      | .error m => some m
      | .ok _ => none)) =
    cands.filterMap (fun repo =>
      match env.wuExists repo n.WorkUnit with
      | .error e => some e
      | .ok _ => none) := by
  induction cands with
  | nil => rfl
  | cons c rest ih =>
    cases hc : env.wuExists c n.WorkUnit with
    | error e => simp [List.filterMap_cons, hc, ih]
    | ok b => cases b <;> simp [List.filterMap_cons, hc, ih]

/-- `State.MaybeFindRepository` is candidate selection followed by the shared
testing step, whenever the input passes the VCS-without-repo validation. -/
theorem maybeFind_eq_step2 (st : State) (env : Env) (n : WorkUnitName)
    (hno : ¬(n.VCS ≠ "" ∧ n.Repo = "")) :
    st.MaybeFindRepository env n = maybeFindStep2 env n (st.findCandidates n) := by
  unfold State.MaybeFindRepository State.findCandidates
  by_cases hv : n.VCS ≠ ""
  · have hr : ¬n.Repo = "" := fun hre => hno ⟨hv, hre⟩
    rw [if_pos hv, if_pos hv, if_neg hr, if_neg hr]
    cases hm : mlookup st.repos n.repoName with
    | none => rfl
    | some repo => rfl
  · rw [if_neg hv, if_neg hv]
    by_cases hr : n.Repo ≠ ""
    · rw [if_pos hr, if_pos hr]
    · rw [if_neg hr, if_neg hr]

/-- C6 (corrected): among the candidate repositories determined by how
qualified `n` is, exactly one positive `Exists` answer yields that repository
with a `nil` error (individual candidate errors only logged); zero positive
answers yield `nil, nil` only when no candidate errored — when candidates
errored, the zero-match result is the joined candidate errors, not `nil`
(this is where the claim as stated fails); two or more positive answers yield
an error naming every matching repository as `vcs:name`. -/
theorem C6_maybe_find_repository (st : State) (env : Env) (n : WorkUnitName)
    (hno : ¬(n.VCS ≠ "" ∧ n.Repo = "")) :
    (∀ r, st.positiveCandidates env n = [r] →
      st.MaybeFindRepository env n = .ok (some r)) ∧
    (st.positiveCandidates env n = [] → st.candidateErrors env n = [] →
      st.MaybeFindRepository env n = .ok none) ∧
    (∀ e es, st.positiveCandidates env n = [] → st.candidateErrors env n = e :: es →
      st.MaybeFindRepository env n =
        .error ("work unit " ++ n.toString ++ ": " ++ String.intercalate "\n" (e :: es))) ∧
    (∀ r1 r2 rs, st.positiveCandidates env n = r1 :: r2 :: rs →
      st.MaybeFindRepository env n =
        .error ("work unit " ++ n.toString ++ ": " ++ ("multiple Repositories match: " ++
          String.intercalate ", "
            ((r1 :: r2 :: rs).map (fun r => r.vcsName ++ ":" ++ r.name))))) := by
  rw [maybeFind_eq_step2 st env n hno]
  unfold State.positiveCandidates State.candidateErrors
  unfold maybeFindStep2 MaybeFindRepositoryGo
  rw [step2_repos_eq, step2_errs_eq]
  refine ⟨?_, ?_, ?_, ?_⟩
  · intro r h
    rw [h]
  · intro h he
    rw [h, he]
    rfl
  · intro e es h he
    rw [h, he]
    rfl
  · intro r1 r2 rs h
    rw [h]

/-- Witness for C6: a state knowing one repository; an unqualified name whose
work unit exists there resolves to it. -/
theorem C6_maybe_find_repository_witness :
    (New fooSrv probeEnv).MaybeFindRepository
        { noopEnv with wuExists := fun _ _ => .ok true } ⟨⟨"", ""⟩, "foo"⟩ =
      .ok (some repoFix) :=
  (C6_maybe_find_repository (New fooSrv probeEnv)
      { noopEnv with wuExists := fun _ _ => .ok true } ⟨⟨"", ""⟩, "foo"⟩
      (by intro h; exact h.1 rfl)).1 repoFix rfl

/-- Counterexample to C6 as stated: with a single candidate whose `Exists`
errors and zero positive matches, the claim demands `nil, nil`
("not-found is not an error, regardless of errors from individual
candidates"), but the code returns the joined candidate errors. -/
theorem C6_counterexample :
    (New fooSrv probeEnv).MaybeFindRepository existsErrEnv ⟨⟨"", ""⟩, "foo"⟩ =
      .error "work unit foo: exists failed" ∧
    (New fooSrv probeEnv).positiveCandidates existsErrEnv ⟨⟨"", ""⟩, "foo"⟩ = [] := by
  exact ⟨rfl, rfl⟩

theorem countRepo_ne_zero_iff (st : State) (r : String) :
    st.countRepo r ≠ 0 ↔ r ∈ st.representedRepos := by
  rw [State.countRepo, State.representedRepos, List.mem_dedup]
  constructor
  · intro h
    rcases List.countP_pos_iff.mp (Nat.pos_of_ne_zero h) with ⟨p, hp, hpr⟩
    exact List.mem_map.mpr ⟨p, hp, of_decide_eq_true hpr⟩
  · intro h
    rcases List.mem_map.mp h with ⟨p, hp, hpr⟩
    exact Nat.pos_iff_ne_zero.mp (List.countP_pos_iff.mpr ⟨p, hp, decide_eq_true hpr⟩)

theorem mem_mkeys_iff_mlookup {m : List (K × V)} {k : K} :
    k ∈ mkeys m ↔ mlookup m k ≠ none := by
  rw [Ne, mlookup_eq_none_iff]
  unfold mkeys
  constructor
  · intro h hall
    rcases List.mem_map.mp h with ⟨p, hp, he⟩
    exact hall p hp he
  · intro h
    by_contra hno
    apply h
    intro p hp he
    exact hno (List.mem_map.mpr ⟨p, hp, he⟩)

/-- Under the count invariant, `len(unqualifiedRepos)` is the number of
distinct unqualified repo names represented among the indexed sessions. -/
theorem uq_length_eq_represented (st : State) (hnd : NodupKeys st.unqualifiedRepos)
    (hc : ∀ r, mlookup st.unqualifiedRepos r =
      if st.countRepo r = 0 then none else some (st.countRepo r : Int)) :
    st.unqualifiedRepos.length = st.representedRepos.length := by
  have hmem : ∀ r, r ∈ mkeys st.unqualifiedRepos ↔ r ∈ st.representedRepos := by
    intro r
    rw [mem_mkeys_iff_mlookup, hc r, ← countRepo_ne_zero_iff]
    by_cases h : st.countRepo r = 0 <;> simp [h]
  have hperm : (mkeys st.unqualifiedRepos).Perm st.representedRepos :=
    (List.perm_ext_iff_of_nodup hnd (List.nodup_dedup _)).mpr hmem
  calc st.unqualifiedRepos.length = (mkeys st.unqualifiedRepos).length :=
        (List.length_map _ _).symm
    _ = st.representedRepos.length := hperm.length_eq

/-- C2 (corrected): assuming the engine's unqualified-repo count index is
consistent with `sessionsByName` (spec invariant 3, which holds on every
engine whose construction saw no work-unit-name collisions), `SessionName`
returns the qualified `repo>workUnit` form exactly when more than one
distinct unqualified repo name is represented among the indexed sessions, or
exactly one is and it is not `n`'s; otherwise the bare work-unit string. -/
theorem C2_session_name_policy (st : State) (n : WorkUnitName)
    (hnd : NodupKeys st.unqualifiedRepos)
    (hc : ∀ r, mlookup st.unqualifiedRepos r =
      if st.countRepo r = 0 then none else some (st.countRepo r : Int)) :
    (st.SessionName n = n.RepoString ↔
      1 < st.representedRepos.length ∨
        (st.representedRepos.length = 1 ∧ n.Repo ∉ st.representedRepos)) ∧
    (st.SessionName n = n.WorkUnitString ↔
      ¬(1 < st.representedRepos.length ∨
        (st.representedRepos.length = 1 ∧ n.Repo ∉ st.representedRepos))) := by
  have hlen := uq_length_eq_represented st hnd hc
  have hne : n.RepoString ≠ n.WorkUnitString := by
    intro he
    have hl := congrArg String.length he
    rw [WorkUnitName.RepoString, WorkUnitName.WorkUnitString] at hl
    simp only [String.length_append] at hl
    have hgt : (">" : String).length = 1 := rfl
    rw [hgt] at hl
    omega
  have hzero : st.countRepo n.Repo = 0 ↔ n.Repo ∉ st.representedRepos := by
    constructor
    · intro h hmem
      exact (countRepo_ne_zero_iff st n.Repo).mpr hmem h
    · intro h
      by_contra hne'
      exact h ((countRepo_ne_zero_iff st n.Repo).mp hne')
  have hfind : mfindD st.unqualifiedRepos n.Repo 0 = 0 ↔ st.countRepo n.Repo = 0 := by
    rw [mfindD, hc n.Repo]
    by_cases h : st.countRepo n.Repo = 0 <;> simp [h]
  have hcond : (st.unqualifiedRepos.length > 1 ∨
      (st.unqualifiedRepos.length = 1 ∧ mfindD st.unqualifiedRepos n.Repo 0 = 0)) ↔
      (1 < st.representedRepos.length ∨
        (st.representedRepos.length = 1 ∧ n.Repo ∉ st.representedRepos)) := by
    rw [hlen, hfind, hzero]
  unfold State.SessionName
  by_cases hcode : st.unqualifiedRepos.length > 1 ∨
      (st.unqualifiedRepos.length = 1 ∧ mfindD st.unqualifiedRepos n.Repo 0 = 0)
  · rw [if_pos hcode]
    exact ⟨⟨fun _ => hcond.mp hcode, fun _ => rfl⟩,
      ⟨fun h => absurd h hne, fun h => absurd (hcond.mp hcode) h⟩⟩
  · rw [if_neg hcode]
    exact ⟨⟨fun h => absurd h.symm hne, fun h => absurd (hcond.mpr h) hcode⟩,
      ⟨fun _ hr => hcode (hcond.mpr hr), fun _ => rfl⟩⟩

theorem fooState_counts :
    ∀ r, mlookup (New fooSrv probeEnv).unqualifiedRepos r =
      if (New fooSrv probeEnv).countRepo r = 0 then none
      else some ((New fooSrv probeEnv).countRepo r : Int) := by
  intro r
  by_cases h : r = "repo"
  · subst h; decide
  · have h1 : mlookup (New fooSrv probeEnv).unqualifiedRepos r = none := by
      show mlookup [("repo", (1 : Int))] r = none
      rw [mlookup_cons, if_neg (fun he => h he.symm)]
      rfl
    have h2 : (New fooSrv probeEnv).countRepo r = 0 := by
      show List.countP (fun p => decide (p.1.Repo = r))
        [((⟨⟨"git", "repo"⟩, "foo"⟩ : WorkUnitName), (⟨0⟩ : Session))] = 0
      rw [List.countP_cons, List.countP_nil]
      have hd : decide ((⟨⟨"git", "repo"⟩, "foo"⟩ : WorkUnitName).Repo = r) = false :=
        decide_eq_false (fun he => h he.symm)
      rw [hd]
      rfl
    rw [h1, h2]
    rfl

/-- Witness for C2: on the engine built from one `foo` session of one
repository, `SessionName` for a work unit of that repository is unqualified. -/
theorem C2_session_name_policy_witness :
    (New fooSrv probeEnv).SessionName (NewWorkUnitName repoFix "bar") =
      (NewWorkUnitName repoFix "bar").WorkUnitString :=
  ((C2_session_name_policy (New fooSrv probeEnv) (NewWorkUnitName repoFix "bar")
      (by unfold NodupKeys; decide) fooState_counts).2).mpr
    (by decide)

/-- Counterexample to C2 as stated ("for every engine state"): a reachable
engine state — `New` over two sessions `foo` and `repo>foo` that parse to the
same work unit (double-counting `repo`), followed by `PruneSessions` that
removes the surviving entry — has an empty `sessionsByName` (zero repo names
represented) yet a stale count, so `SessionName` renders the qualified form
where the claim requires the bare work-unit string. -/
theorem C2_counterexample :
    ((New dupSrv probeEnv).PruneSessions dupSrv probeEnv).2.2.sessionsByName = [] ∧
    ((New dupSrv probeEnv).PruneSessions dupSrv probeEnv).2.2.representedRepos = [] ∧
    ((New dupSrv probeEnv).PruneSessions dupSrv probeEnv).2.2.SessionName
        ⟨⟨"git", "other"⟩, "x"⟩ = "other>x" ∧
    ("other>x" : String) ≠ "x" := by
  exact ⟨rfl, rfl, rfl, by decide⟩

/-- C4: `RenameSession` fails with the does-not-exist error when no session
is indexed under the parsed old name, fails with the already-exists error
when a session is indexed under the target name, and in either failure case
returns the index (hence both involved sessions) untouched; on success it
deletes the old key and inserts the new key in `sessionsByName`, rewrites the
session's `sessionsByID` entry to the new work unit, and touches no other
entry. -/
theorem C4_rename_session (st : State) (srv : TmuxServer) (env : Env)
    (repo : Repository) (old new : String) :
    (mlookup st.sessionsByName (ParseSessionName repo old) = none →
      st.RenameSession srv env repo old new =
        (.error ("tmux session " ++ goQuote (st.SessionName (ParseSessionName repo old)) ++
          " does not exist"), srv, st)) ∧
    (∀ sesh s', mlookup st.sessionsByName (ParseSessionName repo old) = some sesh →
      mlookup st.sessionsByName (NewWorkUnitName repo new) = some s' →
      st.RenameSession srv env repo old new =
        (.error ("tmux session " ++ goQuote (st.SessionName (NewWorkUnitName repo new)) ++
          " already exists"), srv, st)) ∧
    (∀ sesh, mlookup st.sessionsByName (ParseSessionName repo old) = some sesh →
      mlookup st.sessionsByName (NewWorkUnitName repo new) = none →
      env.renameErr sesh.id (st.SessionName (NewWorkUnitName repo new)) = none →
      (st.RenameSession srv env repo old new).1 = .ok () ∧
      mlookup (st.RenameSession srv env repo old new).2.2.sessionsByName
        (ParseSessionName repo old) = none ∧
      mlookup (st.RenameSession srv env repo old new).2.2.sessionsByName
        (NewWorkUnitName repo new) = some sesh ∧
      (∀ m, m ≠ ParseSessionName repo old → m ≠ NewWorkUnitName repo new →
        mlookup (st.RenameSession srv env repo old new).2.2.sessionsByName m =
          mlookup st.sessionsByName m) ∧
      mlookup (st.RenameSession srv env repo old new).2.2.sessionsByID sesh.id =
        some ⟨repo, (NewWorkUnitName repo new).WorkUnit⟩ ∧
      (∀ i, i ≠ sesh.id →
        mlookup (st.RenameSession srv env repo old new).2.2.sessionsByID i =
          mlookup st.sessionsByID i) ∧
      (st.RenameSession srv env repo old new).2.2.unqualifiedRepos = st.unqualifiedRepos ∧
      (st.RenameSession srv env repo old new).2.2.repos = st.repos ∧
      (st.RenameSession srv env repo old new).2.2.unknownSessions = st.unknownSessions) := by
  refine ⟨?_, ?_, ?_⟩
  · intro h
    simp only [State.RenameSession]
    rw [h]
  · intro sesh s' h1 h2
    simp only [State.RenameSession]
    rw [h1, h2]
  · intro sesh h1 h2 hre
    have hne : ParseSessionName repo old ≠ NewWorkUnitName repo new := by
      intro he
      rw [he, h2] at h1
      cases h1
    have hres : (st.RenameSession srv env repo old new).2.2 =
        { st with
          sessionsByName := minsert (merase st.sessionsByName (ParseSessionName repo old))
            (NewWorkUnitName repo new) sesh,
          sessionsByID := minsert st.sessionsByID sesh.id
            ⟨repo, (NewWorkUnitName repo new).WorkUnit⟩ } := by
      simp only [State.RenameSession, TmuxServer.renameOp, h1, h2, hre]
    have hok : (st.RenameSession srv env repo old new).1 = .ok () := by
      simp only [State.RenameSession, TmuxServer.renameOp, h1, h2, hre]
    refine ⟨hok, ?_, ?_, ?_, ?_, ?_, ?_, ?_, ?_⟩
    · rw [hres]
      show mlookup (minsert _ _ _) _ = none
      rw [mlookup_minsert_ne _ _ hne, mlookup_merase_self]
    · rw [hres]
      exact mlookup_minsert_self _ _ _
    · intro m hm1 hm2
      rw [hres]
      show mlookup (minsert _ _ _) _ = _
      rw [mlookup_minsert_ne _ _ hm2, mlookup_merase_ne _ hm1]
    · rw [hres]
      exact mlookup_minsert_self _ _ _
    · intro i hi
      rw [hres]
      exact mlookup_minsert_ne _ _ hi
    · rw [hres]
    · rw [hres]
    · rw [hres]

/-- Witness for C4: with sessions `foo` and `bar` indexed, renaming a
missing session fails, renaming `foo` onto `bar` collides and changes
nothing, and renaming `foo` to a fresh `baz` succeeds. -/
theorem C4_rename_session_witness :
    ((New fooBarSrv probeEnv).RenameSession fooBarSrv probeEnv repoFix "baz" "qux" =
      (.error ("tmux session " ++
          goQuote ((New fooBarSrv probeEnv).SessionName (ParseSessionName repoFix "baz")) ++
          " does not exist"), fooBarSrv, New fooBarSrv probeEnv)) ∧
    ((New fooBarSrv probeEnv).RenameSession fooBarSrv probeEnv repoFix "foo" "bar" =
      (.error ("tmux session " ++
          goQuote ((New fooBarSrv probeEnv).SessionName (NewWorkUnitName repoFix "bar")) ++
          " already exists"), fooBarSrv, New fooBarSrv probeEnv)) ∧
    ((New fooBarSrv probeEnv).RenameSession fooBarSrv probeEnv repoFix "foo" "baz").1 =
      .ok () :=
  ⟨(C4_rename_session (New fooBarSrv probeEnv) fooBarSrv probeEnv repoFix "baz" "qux").1
      (by decide),
    (C4_rename_session (New fooBarSrv probeEnv) fooBarSrv probeEnv repoFix "foo" "bar").2.1
      ⟨0⟩ ⟨1⟩ (by decide) (by decide),
    ((C4_rename_session (New fooBarSrv probeEnv) fooBarSrv probeEnv repoFix "foo" "baz").2.2
      ⟨0⟩ (by decide) (by decide) (by decide)).1⟩

theorem renameOp_calls_live (srv : TmuxServer) (env : Env) (id : Nat) (name : String) :
    (srv.renameOp env id name).2.calls = srv.calls ++ [TmuxCall.rename id name] ∧
    (srv.renameOp env id name).2.liveIds = srv.liveIds ∧
    (srv.renameOp env id name).2.nextId = srv.nextId := by
  unfold TmuxServer.renameOp TmuxServer.liveIds
  cases hre : env.renameErr id name with
  | some e => exact ⟨rfl, rfl, rfl⟩
  | none =>
    refine ⟨rfl, ?_, rfl⟩
    show (srv.live.map _).map SessionState.id = srv.live.map SessionState.id
    rw [List.map_map]
    refine List.map_congr_left ?_
    intro s _
    show (if s.id = id then { s with name := name } else s).id = s.id
    by_cases h : s.id = id <;> simp [h]

/-- The rename loop only appends rename calls to the trace and leaves the
set of live session IDs and the fresh-ID counter unchanged. -/
theorem renameLoop_calls (env : Env) (st : State) (names : Nat → String)
    (l : List (WorkUnitName × Session)) :
    ∀ srv : TmuxServer,
    ∃ tail, (renameLoop env st names l srv).2.calls = srv.calls ++ tail ∧
      (∀ c ∈ tail, c.isKill = false) ∧
      (renameLoop env st names l srv).2.liveIds = srv.liveIds ∧
      (renameLoop env st names l srv).2.nextId = srv.nextId := by
  induction l with
  | nil =>
    intro srv
    exact ⟨[], by simp [renameLoop], by simp, rfl, rfl⟩
  | cons p rest ih =>
    intro srv
    by_cases h : names p.2.id ≠ st.SessionName p.1
    · rcases hop : srv.renameOp env p.2.id (st.SessionName p.1) with ⟨res, srv'⟩
      have hred : renameLoop env st names (p :: rest) srv =
          (match (res, srv') with
          | (.error e, srv') => (e :: (renameLoop env st names rest srv').1,
              (renameLoop env st names rest srv').2)
          | (.ok _, srv') => renameLoop env st names rest srv') := by
        simp only [renameLoop, if_pos h, hop]
      have hc : srv'.calls = srv.calls ++ [TmuxCall.rename p.2.id (st.SessionName p.1)] := by
        have h0 := (renameOp_calls_live srv env p.2.id (st.SessionName p.1)).1
        rw [hop] at h0
        exact h0
      have hl : srv'.liveIds = srv.liveIds := by
        have h0 := (renameOp_calls_live srv env p.2.id (st.SessionName p.1)).2.1
        rw [hop] at h0
        exact h0
      have hn : srv'.nextId = srv.nextId := by
        have h0 := (renameOp_calls_live srv env p.2.id (st.SessionName p.1)).2.2
        rw [hop] at h0
        exact h0
      rcases ih srv' with ⟨tail, ht, hk, hli, hni⟩
      have hmem : ∀ c ∈ TmuxCall.rename p.2.id (st.SessionName p.1) :: tail,
          c.isKill = false := by
        intro c hcm
        rcases List.mem_cons.mp hcm with he | hin
        · rw [he]; rfl
        · exact hk c hin
      have hcalls : (renameLoop env st names rest srv').2.calls =
          srv.calls ++ (TmuxCall.rename p.2.id (st.SessionName p.1) :: tail) := by
        rw [ht, hc, List.append_assoc]
        rfl
      cases res with
      | error e =>
        rw [hred]
        exact ⟨TmuxCall.rename p.2.id (st.SessionName p.1) :: tail, hcalls, hmem,
          by rw [hli, hl], by rw [hni, hn]⟩
      | ok u =>
        rw [hred]
        exact ⟨TmuxCall.rename p.2.id (st.SessionName p.1) :: tail, hcalls, hmem,
          by rw [hli, hl], by rw [hni, hn]⟩
    · have hred : renameLoop env st names (p :: rest) srv = renameLoop env st names rest srv := by
        simp only [renameLoop, if_neg h]
      rw [hred]
      exact ih srv

/-- `updateSessionNames` only appends (non-kill) query and rename calls and
leaves the live session IDs and fresh-ID counter unchanged. -/
theorem updateSessionNames_calls (st : State) (srv : TmuxServer) (env : Env) :
    ∃ tail, (st.updateSessionNames srv env).2.calls = srv.calls ++ tail ∧
      (∀ c ∈ tail, c.isKill = false) ∧
      (st.updateSessionNames srv env).2.liveIds = srv.liveIds ∧
      (st.updateSessionNames srv env).2.nextId = srv.nextId := by
  unfold State.updateSessionNames TmuxServer.namesQueryOp
  by_cases he : st.sessions.isEmpty
  · rw [if_pos he]
    have h0 := renameLoop_calls env st (fun _ => "") st.sessionsByName srv
    exact h0
  · rw [if_neg he]
    cases hq : env.namesQueryErr with
    | some e =>
      refine ⟨[TmuxCall.namesQuery], rfl, ?_, rfl, rfl⟩
      intro c hcm
      rcases List.mem_singleton.mp hcm with he'
      rw [he']
      rfl
    | none =>
      rcases renameLoop_calls env st _ st.sessionsByName
          { srv with calls := srv.calls ++ [TmuxCall.namesQuery] } with ⟨tail, ht, hk, hli, hni⟩
      refine ⟨TmuxCall.namesQuery :: tail, ?_, ?_, ?_, ?_⟩
      · show (renameLoop env st _ st.sessionsByName _).2.calls = _
        rw [ht]
        show (srv.calls ++ [TmuxCall.namesQuery]) ++ tail = _
        rw [List.append_assoc]
        rfl
      · intro c hcm
        rcases List.mem_cons.mp hcm with he' | hin
        · rw [he']; rfl
        · exact hk c hin
      · exact hli
      · exact hni

theorem removeSession_byName (st : State) (n : WorkUnitName) (seshId : Nat) :
    (st.removeSession n seshId).sessionsByName = merase st.sessionsByName n := by
  simp only [State.removeSession]
  split <;> rfl

theorem removeSession_byID (st : State) (n : WorkUnitName) (seshId : Nat) :
    (st.removeSession n seshId).sessionsByID = merase st.sessionsByID seshId := by
  simp only [State.removeSession]
  split <;> rfl

/-- A pruned session decrements its repo's unqualified count by one (whether
or not the key is dropped on reaching zero). -/
theorem removeSession_findD (st : State) (n : WorkUnitName) (seshId : Nat) :
    mfindD (st.removeSession n seshId).unqualifiedRepos n.Repo 0 =
      mfindD st.unqualifiedRepos n.Repo 0 - 1 := by
  simp only [State.removeSession]
  have h2 : mfindD (minsert st.unqualifiedRepos n.Repo
      (mfindD st.unqualifiedRepos n.Repo 0 - 1)) n.Repo 0 =
      mfindD st.unqualifiedRepos n.Repo 0 - 1 := by
    rw [mfindD, mlookup_minsert_self]
    rfl
  by_cases h : mfindD (minsert st.unqualifiedRepos n.Repo
      (mfindD st.unqualifiedRepos n.Repo 0 - 1)) n.Repo 0 = 0
  · rw [if_pos h]
    show mfindD (merase _ n.Repo) n.Repo 0 = _
    rw [mfindD, mlookup_merase_self]
    rw [h2] at h
    show (0 : Int) = _
    exact h.symm
  · rw [if_neg h]
    exact h2

/-- C5: for an engine indexing sessions `{a, b, c}` of a repository that
lists exactly `{a, c}`, `PruneSessions` kills exactly the session of `b`
(the only kill call in the trace is for `b`'s session), removes it from both
indexes, decrements the unqualified-repo count by one, leaves `a` and `c`
indexed, and — the last conjunct, for arbitrary engines — orders the removal
candidates so that every non-current candidate precedes the currently
attached session, which the kill loop then processes strictly in order. -/
theorem C5_prune_sessions (st : State) (srv : TmuxServer) (env : Env)
    (repo : Repository) (a b c : String) (wus : List String) (sa sb sc : Session)
    (hrepos : st.repos = [(NewRepoName repo, repo)])
    (hlist : env.list repo = .ok wus)
    (hwus : ∀ w, w ∈ wus ↔ (w = a ∨ w = c))
    (hperm : st.sessionsByName.Perm
      [(NewWorkUnitName repo a, sa), (NewWorkUnitName repo b, sb),
        (NewWorkUnitName repo c, sc)])
    (hab : b ≠ a) (hbc : b ≠ c) (hac : a ≠ c)
    (hkill : env.killErr sb.id = none) :
    (st.PruneSessions srv env).1 = .ok () ∧
    mlookup (st.PruneSessions srv env).2.2.sessionsByName (NewWorkUnitName repo a) =
      some sa ∧
    mlookup (st.PruneSessions srv env).2.2.sessionsByName (NewWorkUnitName repo c) =
      some sc ∧
    mlookup (st.PruneSessions srv env).2.2.sessionsByName (NewWorkUnitName repo b) =
      none ∧
    mlookup (st.PruneSessions srv env).2.2.sessionsByID sb.id = none ∧
    mfindD (st.PruneSessions srv env).2.2.unqualifiedRepos repo.name 0 =
      mfindD st.unqualifiedRepos repo.name 0 - 1 ∧
    (callsAppended srv.calls (st.PruneSessions srv env).2.1).filter TmuxCall.isKill =
      [TmuxCall.kill sb.id] ∧
    (∀ (st2 : State) (env2 : Env) (cur : Nat), env2.current = some cur →
      ∃ A B, st2.pruneCandidates env2 = A ++ B ∧
        (∀ p ∈ A, p.2.id ≠ cur) ∧ (∀ p ∈ B, p.2.id = cur)) := by
  have hwuInj : ∀ w w' : String, NewWorkUnitName repo w = NewWorkUnitName repo w' → w = w' :=
    fun w w' he => congrArg WorkUnitName.WorkUnit he
  have hne_ab : NewWorkUnitName repo a ≠ NewWorkUnitName repo b :=
    fun he => hab (hwuInj a b he).symm
  have hne_bc : NewWorkUnitName repo b ≠ NewWorkUnitName repo c :=
    fun he => hbc (hwuInj b c he)
  have hne_ac : NewWorkUnitName repo a ≠ NewWorkUnitName repo c :=
    fun he => hac (hwuInj a c he)
  have hnd : NodupKeys st.sessionsByName := by
    unfold NodupKeys mkeys
    rw [(hperm.map Prod.fst).nodup_iff]
    simp only [List.map_cons, List.map_nil, List.nodup_cons, List.mem_cons,
      List.mem_singleton, List.not_mem_nil, not_false_iff, List.nodup_nil, and_true]
    refine ⟨?_, ?_⟩
    · rintro (he | he | he)
      · exact hne_ab he
      · exact hne_ac he
      · cases he
    · rintro (he | he)
      · exact hne_bc he
      · cases he
  have hma : mlookup st.sessionsByName (NewWorkUnitName repo a) = some sa :=
    mlookup_eq_some_of_mem hnd (p := (NewWorkUnitName repo a, sa))
      (hperm.mem_iff.mpr (by simp))
  have hmc : mlookup st.sessionsByName (NewWorkUnitName repo c) = some sc :=
    mlookup_eq_some_of_mem hnd (p := (NewWorkUnitName repo c, sc))
      (hperm.mem_iff.mpr (by simp))
  -- the removal candidates are exactly b's session
  have hfil : st.sessionsByName.filter (fun p =>
      decide (p.1.repoName ∉ ([] : List RepoName) ∧
        p.1 ∉ wus.map (NewWorkUnitName repo))) = [(NewWorkUnitName repo b, sb)] := by
    apply List.perm_singleton.mp
    have hva : decide ((NewWorkUnitName repo a, sa).1.repoName ∉ ([] : List RepoName) ∧
        (NewWorkUnitName repo a, sa).1 ∉ wus.map (NewWorkUnitName repo)) = false := by
      apply decide_eq_false
      rintro ⟨-, hnotin⟩
      exact hnotin (List.mem_map.mpr ⟨a, (hwus a).mpr (Or.inl rfl), rfl⟩)
    have hvc : decide ((NewWorkUnitName repo c, sc).1.repoName ∉ ([] : List RepoName) ∧
        (NewWorkUnitName repo c, sc).1 ∉ wus.map (NewWorkUnitName repo)) = false := by
      apply decide_eq_false
      rintro ⟨-, hnotin⟩
      exact hnotin (List.mem_map.mpr ⟨c, (hwus c).mpr (Or.inr rfl), rfl⟩)
    have hvb : decide ((NewWorkUnitName repo b, sb).1.repoName ∉ ([] : List RepoName) ∧
        (NewWorkUnitName repo b, sb).1 ∉ wus.map (NewWorkUnitName repo)) = true := by
      apply decide_eq_true
      refine ⟨by simp, ?_⟩
      intro hmem
      rcases List.mem_map.mp hmem with ⟨w, hw, he⟩
      have hwb : w = b := hwuInj w b he
      rw [hwb] at hw
      rcases (hwus b).mp hw with h1 | h1
      · exact hab h1
      · exact hbc h1
    have h0 := hperm.filter (fun p =>
      decide (p.1.repoName ∉ ([] : List RepoName) ∧
        p.1 ∉ wus.map (NewWorkUnitName repo)))
    simp only [List.filter_cons, List.filter_nil, hva, hvb, hvc] at h0
    simpa using h0
  have hcands : st.pruneCandidates env = [(NewWorkUnitName repo b, sb)] := by
    unfold State.pruneCandidates
    rw [hrepos]
    simp only [List.filterMap_cons, List.filterMap_nil, hlist, List.flatten]
    rw [List.append_nil]
    rw [hfil]
    cases hcur : env.current with
    | none => rfl
    | some cur =>
      by_cases hsb : sb.id = cur
      · simp [List.filter_cons, hsb]
      · simp [List.filter_cons, hsb]
  have hrun : st.PruneSessions srv env =
      (.ok (), ((st.removeSession (NewWorkUnitName repo b) sb.id).updateSessionNames
        { srv with calls := srv.calls ++ [TmuxCall.kill sb.id],
                   live := srv.live.filter (fun s => s.id != sb.id) } env).2,
        st.removeSession (NewWorkUnitName repo b) sb.id) := by
    unfold State.PruneSessions
    rw [hcands]
    simp only [killLoop, TmuxServer.killOp, hkill]
  rcases updateSessionNames_calls (st.removeSession (NewWorkUnitName repo b) sb.id)
      { srv with calls := srv.calls ++ [TmuxCall.kill sb.id],
                 live := srv.live.filter (fun s => s.id != sb.id) } env with
    ⟨tail, htail, hkfree, -, -⟩
  refine ⟨by rw [hrun], ?_, ?_, ?_, ?_, ?_, ?_, ?_⟩
  · rw [hrun]
    show mlookup (st.removeSession _ _).sessionsByName _ = _
    rw [removeSession_byName, mlookup_merase_ne _ hne_ab, hma]
  · rw [hrun]
    show mlookup (st.removeSession _ _).sessionsByName _ = _
    rw [removeSession_byName, mlookup_merase_ne _ (fun he => hne_bc he.symm), hmc]
  · rw [hrun]
    show mlookup (st.removeSession _ _).sessionsByName _ = _
    rw [removeSession_byName, mlookup_merase_self]
  · rw [hrun]
    show mlookup (st.removeSession _ _).sessionsByID _ = _
    rw [removeSession_byID, mlookup_merase_self]
  · rw [hrun]
    exact removeSession_findD st (NewWorkUnitName repo b) sb.id
  · rw [hrun]
    unfold callsAppended
    show ((((st.removeSession (NewWorkUnitName repo b) sb.id).updateSessionNames
        { srv with calls := srv.calls ++ [TmuxCall.kill sb.id],
                   live := srv.live.filter (fun s => s.id != sb.id) } env).2.calls.drop
        srv.calls.length).filter TmuxCall.isKill) = [TmuxCall.kill sb.id]
    rw [htail]
    show ((((srv.calls ++ [TmuxCall.kill sb.id]) ++ tail).drop srv.calls.length).filter
      TmuxCall.isKill) = _
    rw [List.append_assoc, List.drop_left, List.filter_append]
    have h1 : List.filter TmuxCall.isKill [TmuxCall.kill sb.id] = [TmuxCall.kill sb.id] := rfl
    have h2 : tail.filter TmuxCall.isKill = [] := by
      apply List.filter_eq_nil_iff.mpr
      intro cc hcc
      rw [hkfree cc hcc]
      exact Bool.false_ne_true
    rw [h1, h2]
    rfl
  · intro st2 env2 cur hcur
    refine ⟨?_, ?_, ?_, ?_, ?_⟩
    · exact (st2.sessionsByName.filter (fun p =>
        decide (p.1.repoName ∉ st2.repos.filterMap (fun q =>
          match env2.list q.2 with | .error _ => some q.1 | .ok _ => none) ∧
          p.1 ∉ (st2.repos.filterMap (fun q =>
            match env2.list q.2 with
            | .ok wus2 => some (wus2.map (NewWorkUnitName q.2))
            | .error _ => none)).flatten))).filter (fun p => decide (p.2.id ≠ cur))
    · exact (st2.sessionsByName.filter (fun p =>
        decide (p.1.repoName ∉ st2.repos.filterMap (fun q =>
          match env2.list q.2 with | .error _ => some q.1 | .ok _ => none) ∧
          p.1 ∉ (st2.repos.filterMap (fun q =>
            match env2.list q.2 with
            | .ok wus2 => some (wus2.map (NewWorkUnitName q.2))
            | .error _ => none)).flatten))).filter (fun p => decide (p.2.id = cur))
    · unfold State.pruneCandidates
      rw [hcur]
    · intro p hp
      exact of_decide_eq_true (List.mem_filter.mp hp).2
    · intro p hp
      exact of_decide_eq_true (List.mem_filter.mp hp).2

/-- Witness for C5 at the concrete `{a, b, c}` vs `{a, c}` scenario: the call
succeeds, `b`'s index entry is gone, and exactly `b`'s session is killed. -/
theorem C5_prune_sessions_witness :
    (pruneSt.PruneSessions pruneSrv pruneEnv).1 = .ok () ∧
    mlookup (pruneSt.PruneSessions pruneSrv pruneEnv).2.2.sessionsByName
      (NewWorkUnitName repoFix "b") = none ∧
    (callsAppended pruneSrv.calls (pruneSt.PruneSessions pruneSrv pruneEnv).2.1).filter
      TmuxCall.isKill = [TmuxCall.kill 1] := by
  have h := C5_prune_sessions pruneSt pruneSrv pruneEnv repoFix "a" "b" "c" ["a", "c"]
    ⟨0⟩ ⟨1⟩ ⟨2⟩ rfl rfl (by intro w; simp) (List.Perm.refl _)
    (by decide) (by decide) (by decide) rfl
  exact ⟨h.1, h.2.2.2.1, h.2.2.2.2.2.2.1⟩

/-- Effect of a successful `rename-session` on the observable display name of
every session: the target's name becomes `nm` (if it is live), others are
untouched. -/
theorem find?_name_map_rename (live : List SessionState) (id : Nat) (nm : String) (j : Nat) :
    ((live.map (fun s => if s.id = id then { s with name := nm } else s)).find?
        (fun s => s.id == j)).map SessionState.name =
      if j = id then
        ((live.find? (fun s => s.id == j)).map SessionState.name).map (fun _ => nm)
      else (live.find? (fun s => s.id == j)).map SessionState.name := by
  induction live with
  | nil => by_cases h : j = id <;> simp [h]
  | cons s rest ih =>
    simp only [List.map_cons]
    by_cases hsj : s.id = j
    · have h1 : (s.id == j) = true := beq_iff_eq.mpr hsj
      have h2 : ((if s.id = id then { s with name := nm } else s).id == j) = true := by
        by_cases hsi : s.id = id
        · rw [if_pos hsi]; exact h1
        · rw [if_neg hsi]; exact h1
      simp only [List.find?, h1, h2, Option.map_some]
      by_cases hsi : s.id = id
      · have hji : j = id := by rw [← hsj, hsi]
        rw [if_pos hji, if_pos hsi]
        rfl
      · have hji : ¬j = id := by rw [← hsj]; exact hsi
        rw [if_neg hji, if_neg hsi]
    · have h1 : (s.id == j) = false := by
        simp only [beq_eq_false_iff_ne, ne_eq]
        exact hsj
      have h2 : ((if s.id = id then { s with name := nm } else s).id == j) = false := by
        by_cases hsi : s.id = id
        · rw [if_pos hsi]; exact h1
        · rw [if_neg hsi]; exact h1
      simp only [List.find?, h1, h2]
      exact ih

theorem renameOp_liveName (srv : TmuxServer) (env : Env) (id : Nat) (nm : String)
    (h : env.renameErr id nm = none) (j : Nat) :
    ((srv.renameOp env id nm).2).liveName j =
      if j = id then (srv.liveName j).map (fun _ => nm) else srv.liveName j := by
  have hlive : (srv.renameOp env id nm).2.live =
      srv.live.map (fun s => if s.id = id then { s with name := nm } else s) := by
    unfold TmuxServer.renameOp
    rw [h]
  unfold TmuxServer.liveName
  rw [hlive]
  exact find?_name_map_rename srv.live id nm j

/-- When the snapshot already shows every indexed session at its policy name,
the rename loop does nothing at all. -/
theorem renameLoop_noop (env : Env) (st : State) (names : Nat → String) :
    ∀ (l : List (WorkUnitName × Session)) (srv : TmuxServer),
    (∀ p ∈ l, names p.2.id = st.SessionName p.1) →
    renameLoop env st names l srv = ([], srv) := by
  intro l
  induction l with
  | nil => intro srv _; rfl
  | cons p rest ih =>
    intro srv hall
    have h : ¬(names p.2.id ≠ st.SessionName p.1) :=
      not_not.mpr (hall p (List.mem_cons_self p rest))
    simp only [renameLoop, if_neg h]
    exact ih srv (fun q hq => hall q (List.mem_cons_of_mem _ hq))

/-- Correctness of the rename loop when every rename succeeds, the indexed
sessions carry distinct ids, and the name snapshot reflects the live server:
no errors are collected, every processed session ends at its policy name, and
no other session's name changes. -/
theorem renameLoop_correct (env : Env) (st : State) (names : Nat → String)
    (hre : ∀ id nm, env.renameErr id nm = none) :
    ∀ (l : List (WorkUnitName × Session)) (srv : TmuxServer),
    (l.map (fun p => p.2.id)).Nodup →
    (∀ p ∈ l, srv.liveName p.2.id = some (names p.2.id)) →
    (renameLoop env st names l srv).1 = [] ∧
    (∀ p ∈ l, (renameLoop env st names l srv).2.liveName p.2.id =
        some (st.SessionName p.1)) ∧
    (∀ j, (∀ p ∈ l, p.2.id ≠ j) →
        (renameLoop env st names l srv).2.liveName j = srv.liveName j) := by
  intro l
  induction l with
  | nil =>
    intro srv _ _
    exact ⟨rfl, by simp, fun j _ => rfl⟩
  | cons p rest ih =>
    intro srv hnd hnm
    have hnd' : p.2.id ∉ rest.map (fun q => q.2.id) ∧
        (rest.map (fun q => q.2.id)).Nodup := by
      rw [List.map_cons] at hnd
      exact List.nodup_cons.mp hnd
    obtain ⟨hnotin, hndr⟩ := hnd'
    by_cases h : names p.2.id ≠ st.SessionName p.1
    · have hop : srv.renameOp env p.2.id (st.SessionName p.1) =
          (.ok (), { srv with
            calls := srv.calls ++ [TmuxCall.rename p.2.id (st.SessionName p.1)],
            live := srv.live.map (fun s =>
              if s.id = p.2.id then { s with name := st.SessionName p.1 } else s) }) := by
        unfold TmuxServer.renameOp
        rw [hre p.2.id (st.SessionName p.1)]
      have hred : renameLoop env st names (p :: rest) srv =
          renameLoop env st names rest
            { srv with
              calls := srv.calls ++ [TmuxCall.rename p.2.id (st.SessionName p.1)],
              live := srv.live.map (fun s =>
                if s.id = p.2.id then { s with name := st.SessionName p.1 } else s) } := by
        simp only [renameLoop, if_pos h, hop]
      have hlnm : ∀ j, TmuxServer.liveName
          { srv with
            calls := srv.calls ++ [TmuxCall.rename p.2.id (st.SessionName p.1)],
            live := srv.live.map (fun s =>
              if s.id = p.2.id then { s with name := st.SessionName p.1 } else s) } j =
          if j = p.2.id then (srv.liveName j).map (fun _ => st.SessionName p.1)
          else srv.liveName j := by
        intro j
        have h0 := renameOp_liveName srv env p.2.id (st.SessionName p.1)
          (hre p.2.id (st.SessionName p.1)) j
        rw [hop] at h0
        exact h0
      have hnm' : ∀ q ∈ rest, TmuxServer.liveName
          { srv with
            calls := srv.calls ++ [TmuxCall.rename p.2.id (st.SessionName p.1)],
            live := srv.live.map (fun s =>
              if s.id = p.2.id then { s with name := st.SessionName p.1 } else s) } q.2.id =
          some (names q.2.id) := by
        intro q hq
        have hne : ¬q.2.id = p.2.id :=
          fun he => hnotin (he ▸ List.mem_map.mpr ⟨q, hq, rfl⟩)
        rw [hlnm q.2.id, if_neg hne]
        exact hnm q (List.mem_cons_of_mem _ hq)
      obtain ⟨ih1, ih2, ih3⟩ := ih _ hndr hnm'
      rw [hred]
      refine ⟨ih1, ?_, ?_⟩
      · intro q hq
        rcases List.mem_cons.mp hq with he | hq'
        · subst he
          rw [ih3 q.2.id (fun q' hq' he =>
              hnotin (he ▸ List.mem_map.mpr ⟨q', hq', rfl⟩))]
          rw [hlnm q.2.id, if_pos rfl, hnm q (List.mem_cons_self _ _)]
          rfl
        · exact ih2 q hq'
      · intro j hj
        rw [ih3 j (fun q hq => hj q (List.mem_cons_of_mem _ hq)), hlnm j,
          if_neg (fun he => hj p (List.mem_cons_self _ _) he.symm)]
    · have heq : names p.2.id = st.SessionName p.1 := not_not.mp h
      have hred : renameLoop env st names (p :: rest) srv =
          renameLoop env st names rest srv := by
        simp only [renameLoop, if_neg h]
      obtain ⟨ih1, ih2, ih3⟩ := ih srv hndr (fun q hq => hnm q (List.mem_cons_of_mem _ hq))
      rw [hred]
      refine ⟨ih1, ?_, fun j hj => ih3 j (fun q hq => hj q (List.mem_cons_of_mem _ hq))⟩
      intro q hq
      rcases List.mem_cons.mp hq with he | hq'
      · subst he
        rw [ih3 q.2.id (fun q' hq' he =>
            hnotin (he ▸ List.mem_map.mpr ⟨q', hq', rfl⟩))]
        rw [hnm q (List.mem_cons_self _ _), heq]
      · exact ih2 q hq'

/-- C9 (corrected): for engines whose indexed sessions all belong to the
construction-time snapshot handle and are still live (with pairwise distinct
IDs) — in particular any engine fresh from `New` — a fixup run with every
query and rename succeeding leaves every indexed session's display name at
its policy-computed value, and a second run with no intervening mutation
performs zero renames.  (For sessions created after `New` the property fails;
see the counterexample.) -/
theorem C9_update_session_names_idempotent (st : State) (srv : TmuxServer) (env : Env)
    (hq : env.namesQueryErr = none)
    (hre : ∀ id nm, env.renameErr id nm = none)
    (hnodup : (st.sessionsByName.map (fun p => p.2.id)).Nodup)
    (hhandle : ∀ p ∈ st.sessionsByName, p.2.id ∈ st.sessions)
    (hlive : ∀ p ∈ st.sessionsByName, (srv.liveName p.2.id).isSome) :
    (st.updateSessionNames srv env).1 = .ok () ∧
    (∀ p ∈ st.sessionsByName,
      ((st.updateSessionNames srv env).2).liveName p.2.id = some (st.SessionName p.1)) ∧
    renameCallCount (callsAppended (st.updateSessionNames srv env).2.calls
      (st.updateSessionNames (st.updateSessionNames srv env).2 env).2) = 0 := by
  by_cases hemp : st.sessions.isEmpty
  · have hbn : st.sessionsByName = [] := by
      cases hb : st.sessionsByName with
      | nil => rfl
      | cons p l =>
        exfalso
        have hm := hhandle p (hb ▸ List.mem_cons_self p l)
        rw [List.isEmpty_iff.mp hemp] at hm
        cases hm
    have hq1 : ∀ srv0 : TmuxServer, st.updateSessionNames srv0 env = (.ok (), srv0) := by
      intro srv0
      unfold State.updateSessionNames TmuxServer.namesQueryOp
      rw [if_pos hemp, hbn]
      rfl
    rw [hq1 srv]
    refine ⟨rfl, ?_, ?_⟩
    · intro p hp
      rw [hbn] at hp
      cases hp
    · show renameCallCount (callsAppended srv.calls (st.updateSessionNames srv env).2) = 0
      rw [hq1 srv]
      show renameCallCount (srv.calls.drop srv.calls.length) = 0
      rw [List.drop_length]
      rfl
  · have hquery : ∀ srv0 : TmuxServer, srv0.namesQueryOp env st.sessions =
        (.ok (snapshotNames srv0 st.sessions),
          { srv0 with calls := srv0.calls ++ [TmuxCall.namesQuery] }) := by
      intro srv0
      unfold TmuxServer.namesQueryOp
      rw [if_neg hemp, hq]
    have hcontains : ∀ p ∈ st.sessionsByName, st.sessions.contains p.2.id = true := by
      intro p hp
      simpa using hhandle p hp
    have hnm : ∀ p ∈ st.sessionsByName,
        TmuxServer.liveName { srv with calls := srv.calls ++ [TmuxCall.namesQuery] } p.2.id =
          some (snapshotNames srv st.sessions p.2.id) := by
      intro p hp
      show srv.liveName p.2.id = some (snapshotNames srv st.sessions p.2.id)
      unfold snapshotNames
      rw [if_pos (hcontains p hp)]
      cases hf : srv.live.find? (fun s => s.id == p.2.id) with
      | none =>
        exfalso
        have hnone : srv.liveName p.2.id = none := by
          unfold TmuxServer.liveName
          rw [hf]
          rfl
        have hs := hlive p hp
        rw [hnone] at hs
        cases hs
      | some q =>
        show srv.liveName p.2.id = some q.name
        unfold TmuxServer.liveName
        rw [hf]
        rfl
    obtain ⟨hl1, hl2, hl3⟩ := renameLoop_correct env st (snapshotNames srv st.sessions) hre
      st.sessionsByName { srv with calls := srv.calls ++ [TmuxCall.namesQuery] } hnodup hnm
    have hrun1eq : st.updateSessionNames srv env =
        (.ok (), (renameLoop env st (snapshotNames srv st.sessions) st.sessionsByName
          { srv with calls := srv.calls ++ [TmuxCall.namesQuery] }).2) := by
      unfold State.updateSessionNames
      rw [hquery srv]
      show (match joinErrors (renameLoop env st (snapshotNames srv st.sessions)
          st.sessionsByName
          { srv with calls := srv.calls ++ [TmuxCall.namesQuery] }).1 with
        | none => Except.ok ()
        | some e => Except.error e,
        (renameLoop env st (snapshotNames srv st.sessions) st.sessionsByName
          { srv with calls := srv.calls ++ [TmuxCall.namesQuery] }).2) = _
      rw [hl1]
      rfl
    have hsn : ∀ (srvX : TmuxServer) (j : Nat), st.sessions.contains j = true →
        snapshotNames srvX st.sessions j =
          (match srvX.live.find? (fun s => s.id == j) with
           | some s => s.name
           | none => "") := by
      intro srvX j hc
      unfold snapshotNames
      rw [if_pos hc]
    have hnoop : ∀ p ∈ st.sessionsByName,
        snapshotNames (renameLoop env st (snapshotNames srv st.sessions) st.sessionsByName
          { srv with calls := srv.calls ++ [TmuxCall.namesQuery] }).2 st.sessions p.2.id =
          st.SessionName p.1 := by
      intro p hp
      rw [hsn _ p.2.id (hcontains p hp)]
      have h2 := hl2 p hp
      unfold TmuxServer.liveName at h2
      cases hf : (renameLoop env st (snapshotNames srv st.sessions) st.sessionsByName
          { srv with calls := srv.calls ++ [TmuxCall.namesQuery] }).2.live.find?
          (fun s => s.id == p.2.id) with
      | none =>
        rcases Option.map_eq_some'.mp h2 with ⟨a2, ha2, -⟩
        rw [hf] at ha2
        cases ha2
      | some q =>
        rw [hf] at h2
        exact Option.some.inj h2
    have hrun2eq : st.updateSessionNames
        (renameLoop env st (snapshotNames srv st.sessions) st.sessionsByName
          { srv with calls := srv.calls ++ [TmuxCall.namesQuery] }).2 env =
        (.ok (), { (renameLoop env st (snapshotNames srv st.sessions) st.sessionsByName
          { srv with calls := srv.calls ++ [TmuxCall.namesQuery] }).2 with
            calls := (renameLoop env st (snapshotNames srv st.sessions) st.sessionsByName
              { srv with calls := srv.calls ++ [TmuxCall.namesQuery] }).2.calls ++
              [TmuxCall.namesQuery] }) := by
      unfold State.updateSessionNames
      rw [hquery]
      show (match joinErrors (renameLoop env st (snapshotNames
          (renameLoop env st (snapshotNames srv st.sessions) st.sessionsByName
            { srv with calls := srv.calls ++ [TmuxCall.namesQuery] }).2 st.sessions)
          st.sessionsByName _).1 with
        | none => Except.ok ()
        | some e => Except.error e, _) = _
      rw [renameLoop_noop env st _ st.sessionsByName _ hnoop]
      rfl
    rw [hrun1eq]
    refine ⟨rfl, hl2, ?_⟩
    show renameCallCount (callsAppended (renameLoop env st (snapshotNames srv st.sessions)
        st.sessionsByName { srv with calls := srv.calls ++ [TmuxCall.namesQuery] }).2.calls
      (st.updateSessionNames (renameLoop env st (snapshotNames srv st.sessions)
        st.sessionsByName { srv with calls := srv.calls ++ [TmuxCall.namesQuery] }).2 env).2) = 0
    rw [hrun2eq]
    unfold callsAppended
    show renameCallCount (((renameLoop env st (snapshotNames srv st.sessions)
        st.sessionsByName { srv with calls := srv.calls ++ [TmuxCall.namesQuery] }).2.calls ++
        [TmuxCall.namesQuery]).drop (renameLoop env st (snapshotNames srv st.sessions)
        st.sessionsByName
        { srv with calls := srv.calls ++ [TmuxCall.namesQuery] }).2.calls.length) = 0
    rw [List.drop_left]
    rfl

/-- Witness for C9: an engine fresh from `New` (its one session is in the
snapshot handle and live): the first fixup succeeds and the second performs
zero renames. -/
theorem C9_update_session_names_idempotent_witness :
    ((New fooSrv probeEnv).updateSessionNames fooSrv probeEnv).1 = .ok () ∧
    renameCallCount (callsAppended
      ((New fooSrv probeEnv).updateSessionNames fooSrv probeEnv).2.calls
      ((New fooSrv probeEnv).updateSessionNames
        ((New fooSrv probeEnv).updateSessionNames fooSrv probeEnv).2 probeEnv).2) = 0 := by
  have h := C9_update_session_names_idempotent (New fooSrv probeEnv) fooSrv probeEnv
    rfl (fun _ _ => rfl) (by decide) (by decide) (by decide)
  exact ⟨h.1, h.2.2⟩

/-- Counterexample to C9 as stated ("for every engine state"): after
`NewSession` the created session is not part of the `tmux.Sessions` handle
captured by `New`, so the name query never reports it; even though the first
fixup run succeeds (and actually renames it), the second run renames it
again — one rename, not zero. -/
theorem C9_counterexample :
    c9run1.1 = .ok () ∧
    renameCallCount (callsAppended c9run1.2.calls c9run2.2) = 1 := by
  exact ⟨rfl, rfl⟩

theorem nodup_all_eq_singleton {α : Type} {l : List α} (h : l.Nodup) {p : α}
    (hp : p ∈ l) (hall : ∀ x ∈ l, x = p) : l = [p] := by
  cases l with
  | nil => cases hp
  | cons a t =>
    have ha : a = p := hall a (List.mem_cons_self a t)
    subst ha
    have ht : t = [] := by
      cases t with
      | nil => rfl
      | cons b u =>
        exfalso
        have hb : b = a := hall b (List.mem_cons_of_mem a (List.mem_cons_self b u))
        have := (List.nodup_cons.mp h).1
        rw [hb] at this
        exact this (List.mem_cons_self a u)
    rw [ht]

theorem countP_eq_one_of_unique {α : Type} {l : List α} {pred : α → Bool}
    (hnd : l.Nodup) {p : α} (hp : p ∈ l) (hpred : pred p = true)
    (huniq : ∀ x ∈ l, pred x = true → x = p) : l.countP pred = 1 := by
  rw [List.countP_eq_length_filter]
  have hfil : l.filter pred = [p] := by
    refine nodup_all_eq_singleton (hnd.filter pred) ?_ ?_
    · exact List.mem_filter.mpr ⟨hp, hpred⟩
    · intro x hx
      rcases List.mem_filter.mp hx with ⟨hxl, hxp⟩
      exact huniq x hxl hxp
  rw [hfil]
  rfl

/-- The inductive invariant implies the mutual-consistency property of C1. -/
theorem Inv.consistent {srv : TmuxServer} {st : State} (h : Inv srv st) :
    Consistent st := by
  refine ⟨h.fwd, ?_, ?_⟩
  · intro q hq
    rcases h.bwd q hq with ⟨p, hpm, hpid⟩
    have hqlook : mlookup st.sessionsByID q.1 = some q.2 :=
      mlookup_eq_some_of_mem h.ndID hq
    rcases h.fwd p hpm with ⟨wu, hwulook, hwurn, hwuw⟩
    rw [hpid, hqlook] at hwulook
    have hwu : wu = q.2 := (Option.some.inj hwulook).symm
    subst hwu
    have hentries : st.sessionsByName.Nodup := by
      have := h.ndName
      unfold NodupKeys at this
      exact List.Nodup.of_map _ this
    refine countP_eq_one_of_unique hentries hpm ?_ ?_
    · exact decide_eq_true ⟨hpid, hwurn, hwuw⟩
    · intro x hxm hxp
      rcases of_decide_eq_true hxp with ⟨hxid, -, -⟩
      exact h.injIds x hxm p hpm (by rw [hxid, hpid])
  · intro p hpm p' hpm' hk
    have := eq_of_mem_of_mem_nodupKeys h.ndName hpm hpm' hk
    rw [this]

theorem minsert_eq_cons_of_none {m : List (K × V)} {k : K} {v : V}
    (h : mlookup m k = none) : minsert m k v = (k, v) :: m := by
  unfold minsert
  rw [merase_eq_self_of_mlookup_none h]

/-- Incrementing `unqualifiedRepos[n.Repo]` keeps the count index exact when
an entry with unqualified repo name `n.Repo` is prepended to the name index. -/
theorem counts_insert (uq : List (String × Int)) (byName : List (WorkUnitName × Session))
    (n : WorkUnitName) (s : Session)
    (hc : ∀ r, mlookup uq r =
      if byName.countP (fun p => decide (p.1.Repo = r)) = 0 then none
      else some ((byName.countP (fun p => decide (p.1.Repo = r)) : Int))) :
    ∀ r, mlookup (minsert uq n.Repo (mfindD uq n.Repo 0 + 1)) r =
      if ((n, s) :: byName).countP (fun p => decide (p.1.Repo = r)) = 0 then none
      else some ((((n, s) :: byName).countP (fun p => decide (p.1.Repo = r)) : Int)) := by
  intro r
  rw [List.countP_cons]
  by_cases hr : n.Repo = r
  · subst hr
    have hd : (decide ((n, s).1.Repo = n.Repo)) = true := decide_eq_true rfl
    rw [hd]
    have htt : (byName.countP (fun p => decide (p.1.Repo = n.Repo)) +
        if true = true then 1 else 0) =
        byName.countP (fun p => decide (p.1.Repo = n.Repo)) + 1 := by
      rw [if_pos rfl]
    rw [htt]
    rw [mlookup_minsert_self, mfindD, hc n.Repo]
    by_cases h0 : byName.countP (fun p => decide (p.1.Repo = n.Repo)) = 0
    · rw [if_pos h0, h0]
      norm_num
    · rw [if_neg h0]
      have h1 : byName.countP (fun p => decide (p.1.Repo = n.Repo)) + 1 ≠ 0 :=
        Nat.succ_ne_zero _
      rw [if_neg h1]
      show some ((byName.countP (fun p => decide (p.1.Repo = n.Repo)) : Int) + 1) = _
      norm_num
  · have hd : (decide ((n, s).1.Repo = r)) = false := decide_eq_false hr
    rw [hd]
    have hr' : r ≠ n.Repo := fun he => hr he.symm
    rw [mlookup_minsert_ne _ _ hr', hc r]
    simp

/-- Step 5-7 of construction preserve the invariant, provided the remaining
snapshot sessions have fresh IDs and fresh parsed names. -/
theorem buildState_inv (env : Env) (srv : TmuxServer) :
    ∀ (rest : List SessionState) (st : State),
    (∀ s ∈ rest, s ∈ srv.live) →
    (rest.map SessionState.id).Nodup →
    (rest.filterMap (probedName env)).Nodup →
    Inv srv st →
    (∀ s ∈ rest, ∀ p ∈ st.sessionsByName, p.2.id ≠ s.id) →
    (∀ s ∈ rest, ∀ q ∈ st.sessionsByID, q.1 ≠ s.id) →
    (∀ s ∈ rest, ∀ n, probedName env s = some n → mlookup st.sessionsByName n = none) →
    Inv srv (buildState env rest st) := by
  intro rest
  induction rest with
  | nil => exact fun st _ _ _ hInv _ _ _ => hInv
  | cons s rest ih =>
    intro st hsub hids hpns hInv hf1 hf2 hf3
    have hsub' : ∀ s' ∈ rest, s' ∈ srv.live :=
      fun s' hs' => hsub s' (List.mem_cons_of_mem s hs')
    have hids0 : s.id ∉ rest.map SessionState.id ∧ (rest.map SessionState.id).Nodup := by
      rw [List.map_cons] at hids
      exact List.nodup_cons.mp hids
    cases hp : env.probe s.path with
    | error e =>
      have hpn : probedName env s = none := by
        unfold probedName
        rw [hp]
      have hpns' : (rest.filterMap (probedName env)).Nodup := by
        rw [List.filterMap_cons, hpn] at hpns
        exact hpns
      simp only [buildState, hp]
      exact ih st hsub' hids0.2 hpns' hInv
        (fun s' hs' => hf1 s' (List.mem_cons_of_mem s hs'))
        (fun s' hs' => hf2 s' (List.mem_cons_of_mem s hs'))
        (fun s' hs' => hf3 s' (List.mem_cons_of_mem s hs'))
    | ok oR =>
      cases oR with
      | none =>
        have hpn : probedName env s = none := by
          unfold probedName
          rw [hp]
        have hpns' : (rest.filterMap (probedName env)).Nodup := by
          rw [List.filterMap_cons, hpn] at hpns
          exact hpns
        simp only [buildState, hp]
        refine ih _ hsub' hids0.2 hpns'
          ⟨hInv.ndName, hInv.ndID, hInv.ndUq, hInv.fwd, hInv.bwd, hInv.injIds,
            hInv.counts, hInv.idsLive, hInv.wf⟩
          (fun s' hs' => hf1 s' (List.mem_cons_of_mem s hs'))
          (fun s' hs' => hf2 s' (List.mem_cons_of_mem s hs'))
          (fun s' hs' => hf3 s' (List.mem_cons_of_mem s hs'))
      | some repo =>
        have hpn : probedName env s = some (ParseSessionName repo s.name) := by
          unfold probedName
          rw [hp]
        have hpns0 : ParseSessionName repo s.name ∉ rest.filterMap (probedName env) ∧
            (rest.filterMap (probedName env)).Nodup := by
          rw [List.filterMap_cons, hpn] at hpns
          exact List.nodup_cons.mp hpns
        have hlook : mlookup st.sessionsByName (ParseSessionName repo s.name) = none :=
          hf3 s (List.mem_cons_self s rest) _ hpn
        have hlookID : mlookup st.sessionsByID s.id = none :=
          mlookup_eq_none_iff.mpr (fun q hq => hf2 s (List.mem_cons_self s rest) q hq)
        have hbn : minsert st.sessionsByName (ParseSessionName repo s.name)
            (⟨s.id⟩ : Session) = (ParseSessionName repo s.name, (⟨s.id⟩ : Session)) ::
            st.sessionsByName := minsert_eq_cons_of_none hlook
        have hbid : minsert st.sessionsByID s.id
            (⟨repo, (ParseSessionName repo s.name).WorkUnit⟩ : workUnit) =
            (s.id, (⟨repo, (ParseSessionName repo s.name).WorkUnit⟩ : workUnit)) ::
            st.sessionsByID := minsert_eq_cons_of_none hlookID
        simp only [buildState, hp]
        refine ih _ hsub' hids0.2 hpns0.2 ?_ ?_ ?_ ?_
        · -- the invariant after indexing session s
          refine ⟨?_, ?_, ?_, ?_, ?_, ?_, ?_, ?_, hInv.wf⟩
          · exact nodupKeys_minsert _ _ _ hInv.ndName
          · exact nodupKeys_minsert _ _ _ hInv.ndID
          · exact nodupKeys_minsert _ _ _ hInv.ndUq
          · -- fwd
            intro p hpm
            rw [hbn] at hpm
            rw [hbid]
            rcases List.mem_cons.mp hpm with he | hold
            · subst he
              refine ⟨⟨repo, (ParseSessionName repo s.name).WorkUnit⟩, ?_, ?_, rfl⟩
              · rw [mlookup_cons, if_pos rfl]
              · exact (ParseSessionName_repoName repo s.name).symm
            · have hne : p.2.id ≠ s.id := hf1 s (List.mem_cons_self s rest) p hold
              rcases hInv.fwd p hold with ⟨wu, hwl, hwr, hww⟩
              refine ⟨wu, ?_, hwr, hww⟩
              rw [mlookup_cons, if_neg (fun he => hne he.symm)]
              exact hwl
          · -- bwd
            intro q hq
            rw [hbid] at hq
            rw [hbn]
            rcases List.mem_cons.mp hq with he | hold
            · subst he
              exact ⟨(ParseSessionName repo s.name, ⟨s.id⟩),
                List.mem_cons_self _ _, rfl⟩
            · rcases hInv.bwd q hold with ⟨p, hpm, hpid⟩
              exact ⟨p, List.mem_cons_of_mem _ hpm, hpid⟩
          · -- injIds
            intro p hpm p' hpm'
            rw [hbn] at hpm hpm'
            rcases List.mem_cons.mp hpm with he | hold <;>
              rcases List.mem_cons.mp hpm' with he' | hold'
            · intro _; rw [he, he']
            · intro hid
              subst he
              exact absurd hid.symm (hf1 s (List.mem_cons_self s rest) p' hold')
            · intro hid
              subst he'
              exact absurd hid (hf1 s (List.mem_cons_self s rest) p hold)
            · exact hInv.injIds p hold p' hold'
          · -- counts
            intro r
            have hc0 : ∀ r', mlookup st.unqualifiedRepos r' =
                if st.sessionsByName.countP (fun p => decide (p.1.Repo = r')) = 0 then none
                else some ((st.sessionsByName.countP
                  (fun p => decide (p.1.Repo = r')) : Int)) := hInv.counts
            have h1 := counts_insert st.unqualifiedRepos st.sessionsByName
              (ParseSessionName repo s.name) ⟨s.id⟩ hc0 r
            show mlookup (minsert st.unqualifiedRepos (ParseSessionName repo s.name).Repo
              (mfindD st.unqualifiedRepos (ParseSessionName repo s.name).Repo 0 + 1)) r = _
            rw [h1]
            have hbn2 : (minsert st.sessionsByName (ParseSessionName repo s.name)
                (⟨s.id⟩ : Session)).countP (fun p => decide (p.1.Repo = r)) =
                ((ParseSessionName repo s.name, (⟨s.id⟩ : Session)) ::
                  st.sessionsByName).countP (fun p => decide (p.1.Repo = r)) := by
              rw [hbn]
            show _ = if (State.countRepo _ r) = 0 then none else some ((State.countRepo _ r : Int))
            unfold State.countRepo
            rw [hbn2]
          · -- idsLive
            intro p hpm
            rw [hbn] at hpm
            rcases List.mem_cons.mp hpm with he | hold
            · subst he
              exact List.mem_map.mpr ⟨s, hsub s (List.mem_cons_self s rest), rfl⟩
            · exact hInv.idsLive p hold
        · -- freshness of remaining ids vs the grown name index
          intro s' hs' p hpm
          rw [hbn] at hpm
          rcases List.mem_cons.mp hpm with he | hold
          · subst he
            show s.id ≠ s'.id
            intro he'
            exact hids0.1 (he' ▸ List.mem_map.mpr ⟨s', hs', rfl⟩)
          · exact hf1 s' (List.mem_cons_of_mem s hs') p hold
        · -- freshness of remaining ids vs the grown reverse index
          intro s' hs' q hq
          rw [hbid] at hq
          rcases List.mem_cons.mp hq with he | hold
          · subst he
            show s.id ≠ s'.id
            intro he'
            exact hids0.1 (he' ▸ List.mem_map.mpr ⟨s', hs', rfl⟩)
          · exact hf2 s' (List.mem_cons_of_mem s hs') q hold
        · -- freshness of remaining parsed names
          intro s' hs' n hn
          rw [hbn, mlookup_cons, if_neg ?_]
          · exact hf3 s' (List.mem_cons_of_mem s hs') n hn
          · intro he
            refine hpns0.1 ?_
            have he' : ParseSessionName repo s.name = n := he
            rw [he']
            exact List.mem_filterMap.mpr ⟨s', hs', hn⟩

/-- `New` establishes the invariant whenever the snapshot has tmux-guaranteed
distinct session IDs and no two sessions parse to the same work-unit name. -/
theorem New_inv (srv : TmuxServer) (env : Env) (hwf : ServerWf srv)
    (hpn : (srv.live.filterMap (probedName env)).Nodup) :
    Inv srv (New srv env) := by
  unfold New
  refine buildState_inv env srv srv.live _ (fun s hs => hs) hwf.1 hpn ?_ ?_ ?_ ?_
  · refine ⟨List.nodup_nil, List.nodup_nil, List.nodup_nil, ?_, ?_, ?_, ?_, ?_, hwf⟩
    · intro p hp; cases hp
    · intro q hq; cases hq
    · intro p hp; cases hp
    · intro r; rfl
    · intro p hp; cases hp
  · intro s _ p hp; cases hp
  · intro s _ q hq; cases hq
  · intro s _ n _; rfl

/-- The invariant only reads the server's live IDs and fresh-ID counter, so
it transports across server changes that preserve them (renames, trace
appends). -/
theorem Inv.transport {srv srv' : TmuxServer} {st : State} (h : Inv srv st)
    (hl : srv'.liveIds = srv.liveIds) (hn : srv'.nextId = srv.nextId) : Inv srv' st := by
  refine ⟨h.ndName, h.ndID, h.ndUq, h.fwd, h.bwd, h.injIds, h.counts, ?_, ?_, ?_⟩
  · intro p hp
    rw [hl]
    exact h.idsLive p hp
  · rw [hl]
    exact h.wf.1
  · intro i hi
    rw [hn]
    rw [hl] at hi
    exact h.wf.2 i hi

theorem updateSessionNames_inv (stU : State) (srv : TmuxServer) (env : Env) {st : State}
    (h : Inv srv st) : Inv (stU.updateSessionNames srv env).2 st := by
  rcases updateSessionNames_calls stU srv env with ⟨tail, -, -, hl, hn⟩
  exact h.transport hl hn

theorem NewSession_inv (st : State) (srv : TmuxServer) (env : Env)
    (repo : Repository) (w : String) (h : Inv srv st) :
    Inv (st.NewSession srv env repo w).2.1 (st.NewSession srv env repo w).2.2 := by
  cases hlook : mlookup st.sessionsByName (NewWorkUnitName repo w) with
  | some s0 =>
    have hres : (st.NewSession srv env repo w).2 = (srv, st) := by
      simp only [State.NewSession, hlook]
    rw [hres]
    exact h
  | none =>
    cases hns : env.newSessionErr (st.SessionName (NewWorkUnitName repo w)) repo.rootDir with
    | some e =>
      have hres : (st.NewSession srv env repo w).2 =
          ({ srv with calls := srv.calls ++ [TmuxCall.newSession
            (st.SessionName (NewWorkUnitName repo w)) repo.rootDir] }, st) := by
        simp only [State.NewSession, TmuxServer.newSessionOp, hlook, hns]
      rw [hres]
      exact h.transport rfl rfl
    | none =>
      have hres : (st.NewSession srv env repo w).2 =
          (({ st with
              sessionsByName := minsert st.sessionsByName (NewWorkUnitName repo w)
                ⟨srv.nextId⟩,
              sessionsByID := minsert st.sessionsByID srv.nextId
                ⟨repo, (NewWorkUnitName repo w).WorkUnit⟩,
              unqualifiedRepos := minsert st.unqualifiedRepos (NewWorkUnitName repo w).Repo
                (mfindD st.unqualifiedRepos (NewWorkUnitName repo w).Repo 0 + 1),
              repos := minsert st.repos (NewWorkUnitName repo w).repoName
                repo }.updateSessionNames
            { live := srv.live ++ [(⟨srv.nextId,
                st.SessionName (NewWorkUnitName repo w), repo.rootDir⟩ : SessionState)],
              nextId := srv.nextId + 1,
              calls := srv.calls ++ [TmuxCall.newSession
                (st.SessionName (NewWorkUnitName repo w)) repo.rootDir] } env).2,
            { st with
              sessionsByName := minsert st.sessionsByName (NewWorkUnitName repo w)
                ⟨srv.nextId⟩,
              sessionsByID := minsert st.sessionsByID srv.nextId
                ⟨repo, (NewWorkUnitName repo w).WorkUnit⟩,
              unqualifiedRepos := minsert st.unqualifiedRepos (NewWorkUnitName repo w).Repo
                (mfindD st.unqualifiedRepos (NewWorkUnitName repo w).Repo 0 + 1),
              repos := minsert st.repos (NewWorkUnitName repo w).repoName repo }) := by
        simp only [State.NewSession, TmuxServer.newSessionOp, hlook, hns]
      have hfresh : ∀ p ∈ st.sessionsByName, p.2.id ≠ srv.nextId := by
        intro p hp he
        have hlt := h.wf.2 p.2.id (h.idsLive p hp)
        rw [he] at hlt
        exact Nat.lt_irrefl _ hlt
      have hfreshID : ∀ q ∈ st.sessionsByID, q.1 ≠ srv.nextId := by
        intro q hq he
        rcases h.bwd q hq with ⟨p, hp, hpid⟩
        exact hfresh p hp (by rw [hpid, he])
      have hbn : minsert st.sessionsByName (NewWorkUnitName repo w)
          (⟨srv.nextId⟩ : Session) =
          (NewWorkUnitName repo w, (⟨srv.nextId⟩ : Session)) :: st.sessionsByName :=
        minsert_eq_cons_of_none hlook
      have hbid : minsert st.sessionsByID srv.nextId
          (⟨repo, (NewWorkUnitName repo w).WorkUnit⟩ : workUnit) =
          (srv.nextId, (⟨repo, (NewWorkUnitName repo w).WorkUnit⟩ : workUnit)) ::
            st.sessionsByID :=
        minsert_eq_cons_of_none (mlookup_eq_none_iff.mpr hfreshID)
      have hl1 : TmuxServer.liveIds
          { live := srv.live ++ [(⟨srv.nextId,
              st.SessionName (NewWorkUnitName repo w), repo.rootDir⟩ : SessionState)],
            nextId := srv.nextId + 1,
            calls := srv.calls ++ [TmuxCall.newSession
              (st.SessionName (NewWorkUnitName repo w)) repo.rootDir] } =
          srv.liveIds ++ [srv.nextId] := by
        unfold TmuxServer.liveIds
        rw [List.map_append]
        rfl
      have hInv1 : Inv
          { live := srv.live ++ [(⟨srv.nextId,
              st.SessionName (NewWorkUnitName repo w), repo.rootDir⟩ : SessionState)],
            nextId := srv.nextId + 1,
            calls := srv.calls ++ [TmuxCall.newSession
              (st.SessionName (NewWorkUnitName repo w)) repo.rootDir] }
          { st with
            sessionsByName := minsert st.sessionsByName (NewWorkUnitName repo w)
              ⟨srv.nextId⟩,
            sessionsByID := minsert st.sessionsByID srv.nextId
              ⟨repo, (NewWorkUnitName repo w).WorkUnit⟩,
            unqualifiedRepos := minsert st.unqualifiedRepos (NewWorkUnitName repo w).Repo
              (mfindD st.unqualifiedRepos (NewWorkUnitName repo w).Repo 0 + 1),
            repos := minsert st.repos (NewWorkUnitName repo w).repoName repo } := by
        refine ⟨nodupKeys_minsert _ _ _ h.ndName, nodupKeys_minsert _ _ _ h.ndID,
          nodupKeys_minsert _ _ _ h.ndUq, ?_, ?_, ?_, ?_, ?_, ?_, ?_⟩
        · -- fwd
          intro p hpm
          rw [hbn] at hpm
          rw [hbid]
          rcases List.mem_cons.mp hpm with he | hold
          · subst he
            exact ⟨⟨repo, (NewWorkUnitName repo w).WorkUnit⟩,
              by rw [mlookup_cons, if_pos rfl], rfl, rfl⟩
          · have hne : p.2.id ≠ srv.nextId := hfresh p hold
            rcases h.fwd p hold with ⟨wu, hwl, hwr, hww⟩
            exact ⟨wu, by rw [mlookup_cons, if_neg (fun he => hne he.symm)]; exact hwl,
              hwr, hww⟩
        · -- bwd
          intro q hq
          rw [hbid] at hq
          rw [hbn]
          rcases List.mem_cons.mp hq with he | hold
          · subst he
            exact ⟨(NewWorkUnitName repo w, ⟨srv.nextId⟩), List.mem_cons_self _ _, rfl⟩
          · rcases h.bwd q hold with ⟨p, hpm, hpid⟩
            exact ⟨p, List.mem_cons_of_mem _ hpm, hpid⟩
        · -- injIds
          intro p hpm p' hpm'
          rw [hbn] at hpm hpm'
          rcases List.mem_cons.mp hpm with he | hold <;>
            rcases List.mem_cons.mp hpm' with he' | hold'
          · intro _; rw [he, he']
          · intro hid
            subst he
            exact absurd hid.symm (hfresh p' hold')
          · intro hid
            subst he'
            exact absurd hid (hfresh p hold)
          · exact h.injIds p hold p' hold'
        · -- counts
          intro r
          have h1 := counts_insert st.unqualifiedRepos st.sessionsByName
            (NewWorkUnitName repo w) ⟨srv.nextId⟩ h.counts r
          show mlookup (minsert st.unqualifiedRepos (NewWorkUnitName repo w).Repo
            (mfindD st.unqualifiedRepos (NewWorkUnitName repo w).Repo 0 + 1)) r = _
          rw [h1]
          show _ = if (State.countRepo _ r) = 0 then none
            else some ((State.countRepo _ r : Int))
          unfold State.countRepo
          rw [show (minsert st.sessionsByName (NewWorkUnitName repo w)
            (⟨srv.nextId⟩ : Session)) = _ from hbn]
        · -- idsLive
          intro p hpm
          rw [hbn] at hpm
          rw [hl1]
          rcases List.mem_cons.mp hpm with he | hold
          · subst he
            exact List.mem_append.mpr (Or.inr (List.mem_singleton.mpr rfl))
          · exact List.mem_append.mpr (Or.inl (h.idsLive p hold))
        · -- wf: nodup
          rw [hl1]
          rw [List.nodup_append]
          refine ⟨h.wf.1, List.nodup_singleton _, ?_⟩
          intro i hi hi'
          rw [List.mem_singleton.mp hi'] at hi
          exact Nat.lt_irrefl _ (h.wf.2 _ hi)
        · -- wf: bound
          intro i hi
          rw [hl1] at hi
          show i < srv.nextId + 1
          rcases List.mem_append.mp hi with hi | hi
          · exact Nat.lt_succ_of_lt (h.wf.2 i hi)
          · rw [List.mem_singleton.mp hi]
            exact Nat.lt_succ_self _
      rw [hres]
      rcases updateSessionNames_calls
        { st with
          sessionsByName := minsert st.sessionsByName (NewWorkUnitName repo w)
            ⟨srv.nextId⟩,
          sessionsByID := minsert st.sessionsByID srv.nextId
            ⟨repo, (NewWorkUnitName repo w).WorkUnit⟩,
          unqualifiedRepos := minsert st.unqualifiedRepos (NewWorkUnitName repo w).Repo
            (mfindD st.unqualifiedRepos (NewWorkUnitName repo w).Repo 0 + 1),
          repos := minsert st.repos (NewWorkUnitName repo w).repoName repo }
        { live := srv.live ++ [(⟨srv.nextId,
            st.SessionName (NewWorkUnitName repo w), repo.rootDir⟩ : SessionState)],
          nextId := srv.nextId + 1,
          calls := srv.calls ++ [TmuxCall.newSession
            (st.SessionName (NewWorkUnitName repo w)) repo.rootDir] } env with
        ⟨tail, -, -, hl2, hn2⟩
      exact hInv1.transport hl2 hn2

set_option maxRecDepth 4000 in
theorem RenameSession_inv (st : State) (srv : TmuxServer) (env : Env)
    (repo : Repository) (old new : String) (h : Inv srv st) :
    Inv (st.RenameSession srv env repo old new).2.1
      (st.RenameSession srv env repo old new).2.2 := by
  cases hlook : mlookup st.sessionsByName (ParseSessionName repo old) with
  | none =>
    have hres0 : st.RenameSession srv env repo old new =
        (.error ("tmux session " ++ goQuote (st.SessionName (ParseSessionName repo old)) ++
          " does not exist"), srv, st) := by
      simp only [State.RenameSession]
      rw [hlook]
    have hres : (st.RenameSession srv env repo old new).2 = (srv, st) := by
      rw [hres0]
    rw [hres]
    exact h
  | some sesh =>
    cases hlook2 : mlookup st.sessionsByName (NewWorkUnitName repo new) with
    | some s2 =>
      have hres0 : st.RenameSession srv env repo old new =
          (.error ("tmux session " ++ goQuote (st.SessionName (NewWorkUnitName repo new)) ++
            " already exists"), srv, st) := by
        simp only [State.RenameSession]
        rw [hlook, hlook2]
      have hres : (st.RenameSession srv env repo old new).2 = (srv, st) := by
        rw [hres0]
      rw [hres]
      exact h
    | none =>
      cases hre : env.renameErr sesh.id (st.SessionName (NewWorkUnitName repo new)) with
      | some e =>
        have hres : (st.RenameSession srv env repo old new).2 =
            ((srv.renameOp env sesh.id (st.SessionName (NewWorkUnitName repo new))).2,
              st) := by
          simp only [State.RenameSession, TmuxServer.renameOp, hlook, hlook2, hre]
        rw [hres]
        rcases renameOp_calls_live srv env sesh.id
          (st.SessionName (NewWorkUnitName repo new)) with ⟨-, hl1, hn1⟩
        exact h.transport hl1 hn1
      | none =>
        have hop : srv.renameOp env sesh.id (st.SessionName (NewWorkUnitName repo new)) =
            (Except.ok (),
              (srv.renameOp env sesh.id (st.SessionName (NewWorkUnitName repo new))).2) := by
          have h1 : (srv.renameOp env sesh.id
              (st.SessionName (NewWorkUnitName repo new))).1 = Except.ok () := by
            unfold TmuxServer.renameOp
            rw [hre]
          exact Prod.ext h1 rfl
        have hres : (st.RenameSession srv env repo old new).2 =
            (({ st with
                sessionsByName := minsert
                  (merase st.sessionsByName (ParseSessionName repo old))
                  (NewWorkUnitName repo new) sesh,
                sessionsByID := minsert st.sessionsByID sesh.id
                  ⟨repo, (NewWorkUnitName repo new).WorkUnit⟩ }.updateSessionNames
              (srv.renameOp env sesh.id
                (st.SessionName (NewWorkUnitName repo new))).2 env).2,
              { st with
                sessionsByName := minsert
                  (merase st.sessionsByName (ParseSessionName repo old))
                  (NewWorkUnitName repo new) sesh,
                sessionsByID := minsert st.sessionsByID sesh.id
                  ⟨repo, (NewWorkUnitName repo new).WorkUnit⟩ }) := by
          simp only [State.RenameSession]
          rw [hlook, hlook2]
          simp only []
          rw [hop]
        have hmem : (ParseSessionName repo old, sesh) ∈ st.sessionsByName :=
          mem_of_mlookup_eq_some hlook
        have hneON : (NewWorkUnitName repo new) ≠ (ParseSessionName repo old) := by
          intro he
          rw [← he, hlook2] at hlook
          cases hlook
        have hidUnique : ∀ p ∈ st.sessionsByName, p.2.id = sesh.id →
            p = (ParseSessionName repo old, sesh) := by
          intro p hp hid
          exact h.injIds p hp (ParseSessionName repo old, sesh) hmem hid
        have hnone2 : mlookup (merase st.sessionsByName (ParseSessionName repo old))
            (NewWorkUnitName repo new) = none := by
          rw [mlookup_merase_ne _ hneON]
          exact hlook2
        have hbn : minsert (merase st.sessionsByName (ParseSessionName repo old))
            (NewWorkUnitName repo new) sesh =
            (NewWorkUnitName repo new, sesh) ::
              merase st.sessionsByName (ParseSessionName repo old) :=
          minsert_eq_cons_of_none hnone2
        have hInv1 : Inv srv
            { st with
              sessionsByName := minsert
                (merase st.sessionsByName (ParseSessionName repo old))
                (NewWorkUnitName repo new) sesh,
              sessionsByID := minsert st.sessionsByID sesh.id
                ⟨repo, (NewWorkUnitName repo new).WorkUnit⟩ } := by
          refine ⟨nodupKeys_minsert _ _ _ (nodupKeys_merase _ _ h.ndName),
            nodupKeys_minsert _ _ _ h.ndID, h.ndUq, ?_, ?_, ?_, ?_, ?_, h.wf⟩
          · -- fwd
            intro p hp
            rcases mem_minsert.mp hp with he | ⟨hp2, hpneNew⟩
            · subst he
              exact ⟨⟨repo, (NewWorkUnitName repo new).WorkUnit⟩,
                mlookup_minsert_self _ _ _, rfl, rfl⟩
            · rcases mem_merase.mp hp2 with ⟨hpB, hpneOld⟩
              have hne : p.2.id ≠ sesh.id := by
                intro hid
                exact hpneOld (congrArg Prod.fst (hidUnique p hpB hid))
              rcases h.fwd p hpB with ⟨wu, hwl, hwr, hww⟩
              exact ⟨wu, by rw [mlookup_minsert_ne _ _ hne]; exact hwl, hwr, hww⟩
          · -- bwd
            intro q hq
            rcases mem_minsert.mp hq with he | ⟨hqB, hqne⟩
            · subst he
              exact ⟨(NewWorkUnitName repo new, sesh),
                mem_minsert.mpr (Or.inl rfl), rfl⟩
            · rcases h.bwd q hqB with ⟨p, hpB, hpid⟩
              have hpneOld : p.1 ≠ ParseSessionName repo old := by
                intro hpk
                have hpe := eq_of_mem_of_mem_nodupKeys h.ndName hpB hmem hpk
                rw [hpe] at hpid
                exact hqne hpid.symm
              have hpneNew : p.1 ≠ NewWorkUnitName repo new :=
                mlookup_eq_none_iff.mp hlook2 p hpB
              exact ⟨p, mem_minsert.mpr (Or.inr
                ⟨mem_merase.mpr ⟨hpB, hpneOld⟩, hpneNew⟩), hpid⟩
          · -- injIds
            intro p hp p' hp'
            rcases mem_minsert.mp hp with he | ⟨hp2, -⟩ <;>
              rcases mem_minsert.mp hp' with he' | ⟨hp2', -⟩
            · intro _; rw [he, he']
            · intro hid
              subst he
              rcases mem_merase.mp hp2' with ⟨hpB', hpneOld'⟩
              exact absurd (congrArg Prod.fst (hidUnique p' hpB' hid.symm)) hpneOld'
            · intro hid
              subst he'
              rcases mem_merase.mp hp2 with ⟨hpB, hpneOld⟩
              exact absurd (congrArg Prod.fst (hidUnique p hpB hid)) hpneOld
            · rcases mem_merase.mp hp2 with ⟨hpB, -⟩
              rcases mem_merase.mp hp2' with ⟨hpB', -⟩
              exact h.injIds p hpB p' hpB'
          · -- counts
            intro r
            have hperm := perm_cons_merase h.ndName hmem
            have hRepo : (NewWorkUnitName repo new).Repo =
                (ParseSessionName repo old).Repo :=
              (ParseSessionName_Repo repo old).symm
            have hcnt : (minsert (merase st.sessionsByName (ParseSessionName repo old))
                (NewWorkUnitName repo new) sesh).countP
                  (fun p => decide (p.1.Repo = r)) =
                st.sessionsByName.countP (fun p => decide (p.1.Repo = r)) := by
              rw [hbn, List.countP_cons,
                hperm.countP_eq (fun p => decide (p.1.Repo = r)), List.countP_cons]
              have : ((NewWorkUnitName repo new, sesh) : WorkUnitName × Session).1.Repo =
                  ((ParseSessionName repo old, sesh) : WorkUnitName × Session).1.Repo :=
                hRepo
              rw [this]
            have hc := h.counts r
            simp only [State.countRepo] at hc ⊢
            rw [hcnt]
            exact hc
          · -- idsLive
            intro p hp
            rcases mem_minsert.mp hp with he | ⟨hp2, -⟩
            · subst he
              exact h.idsLive (ParseSessionName repo old, sesh) hmem
            · rcases mem_merase.mp hp2 with ⟨hpB, -⟩
              exact h.idsLive p hpB
        rw [hres]
        rcases renameOp_calls_live srv env sesh.id
          (st.SessionName (NewWorkUnitName repo new)) with ⟨-, hl1, hn1⟩
        exact updateSessionNames_inv _ _ env (hInv1.transport hl1 hn1)

theorem killOp_live (srv : TmuxServer) (env : Env) (id : Nat)
    (hke : env.killErr id = none) :
    (srv.killOp env id).2.liveIds = srv.liveIds.filter (fun i => i != id) ∧
    (srv.killOp env id).2.nextId = srv.nextId := by
  unfold TmuxServer.killOp TmuxServer.liveIds
  rw [hke]
  refine ⟨?_, rfl⟩
  show (srv.live.filter (fun s => s.id != id)).map SessionState.id =
    (srv.live.map SessionState.id).filter (fun i => i != id)
  generalize srv.live = l
  induction l with
  | nil => rfl
  | cons s rest ih =>
    rw [List.filter_cons, List.map_cons, List.filter_cons]
    by_cases hs : (s.id != id) = true
    · rw [if_pos hs, if_pos hs, List.map_cons, ih]
    · rw [if_neg hs, if_neg hs, ih]

/-- The invariant survives killing a terminal session no indexed session
refers to. -/
theorem Inv.killTransport {srv srv' : TmuxServer} {st : State} {id : Nat}
    (h : Inv srv st) (hl : srv'.liveIds = srv.liveIds.filter (fun i => i != id))
    (hn : srv'.nextId = srv.nextId)
    (hid : ∀ p ∈ st.sessionsByName, p.2.id ≠ id) : Inv srv' st := by
  refine ⟨h.ndName, h.ndID, h.ndUq, h.fwd, h.bwd, h.injIds, h.counts, ?_, ?_, ?_⟩
  · intro p hp
    rw [hl]
    refine List.mem_filter.mpr ⟨h.idsLive p hp, ?_⟩
    simp [hid p hp]
  · rw [hl]
    exact h.wf.1.filter _
  · intro i hi
    rw [hn]
    rw [hl] at hi
    exact h.wf.2 i (List.mem_filter.mp hi).1

theorem removeSession_inv (st : State) (srv : TmuxServer) (n : WorkUnitName)
    (s : Session) (hmem : (n, s) ∈ st.sessionsByName) (h : Inv srv st) :
    Inv srv (st.removeSession n s.id) := by
  have hidUnique : ∀ p ∈ st.sessionsByName, p.2.id = s.id → p = (n, s) := by
    intro p hp hid
    exact h.injIds p hp (n, s) hmem hid
  have hbn := removeSession_byName st n s.id
  have hbid := removeSession_byID st n s.id
  have hc0pos : 0 < st.countRepo n.Repo := by
    unfold State.countRepo
    rw [List.countP_pos_iff]
    exact ⟨(n, s), hmem, by simp⟩
  have huqn : mlookup st.unqualifiedRepos n.Repo = some ((st.countRepo n.Repo : Int)) := by
    have hc := h.counts n.Repo
    rw [if_neg (Nat.pos_iff_ne_zero.mp hc0pos)] at hc
    exact hc
  have hperm := perm_cons_merase h.ndName hmem
  have hcnt : ∀ r, (merase st.sessionsByName n).countP (fun p => decide (p.1.Repo = r)) =
      st.sessionsByName.countP (fun p => decide (p.1.Repo = r)) -
        (if n.Repo = r then 1 else 0) := by
    intro r
    rw [hperm.countP_eq (fun p => decide (p.1.Repo = r)), List.countP_cons]
    by_cases hr : n.Repo = r
    · have hd : (decide (((n, s) : WorkUnitName × Session).1.Repo = r)) = true := by
        simp [hr]
      rw [hd, if_pos hr]
      simp
    · have hd : (decide (((n, s) : WorkUnitName × Session).1.Repo = r)) = false := by
        simp [hr]
      rw [hd, if_neg hr]
      simp
  have hfd : mfindD st.unqualifiedRepos n.Repo 0 = (st.countRepo n.Repo : Int) := by
    rw [mfindD, huqn]
    rfl
  have hfind : mfindD (minsert st.unqualifiedRepos n.Repo
      (mfindD st.unqualifiedRepos n.Repo 0 - 1)) n.Repo 0 =
      (st.countRepo n.Repo : Int) - 1 := by
    rw [mfindD, mlookup_minsert_self, Option.getD_some, hfd]
  have hcR : (merase st.sessionsByName n).countP (fun p => decide (p.1.Repo = n.Repo)) =
      st.countRepo n.Repo - 1 := by
    rw [hcnt n.Repo, if_pos rfl]
    rfl
  have hcO : ∀ r, n.Repo ≠ r →
      (merase st.sessionsByName n).countP (fun p => decide (p.1.Repo = r)) =
        st.countRepo r := by
    intro r hr
    rw [hcnt r, if_neg hr, Nat.sub_zero]
    rfl
  have hcounts : ∀ r, mlookup (st.removeSession n s.id).unqualifiedRepos r =
      if (merase st.sessionsByName n).countP (fun p => decide (p.1.Repo = r)) = 0
      then none
      else some (((merase st.sessionsByName n).countP
        (fun p => decide (p.1.Repo = r)) : Int)) := by
    intro r
    simp only [State.removeSession]
    by_cases hcond : mfindD (minsert st.unqualifiedRepos n.Repo
        (mfindD st.unqualifiedRepos n.Repo 0 - 1)) n.Repo 0 = 0
    · rw [if_pos hcond]
      rw [hfind] at hcond
      have hone : st.countRepo n.Repo = 1 := by omega
      show mlookup (merase (minsert st.unqualifiedRepos n.Repo
        (mfindD st.unqualifiedRepos n.Repo 0 - 1)) n.Repo) r = _
      by_cases hr : n.Repo = r
      · rw [← hr, mlookup_merase_self, hcR, hone]
        rfl
      · rw [mlookup_merase_ne _ (fun he => hr he.symm),
          mlookup_minsert_ne _ _ (fun he => hr he.symm), hcO r hr]
        exact h.counts r
    · rw [if_neg hcond]
      rw [hfind] at hcond
      have hne1 : st.countRepo n.Repo ≠ 1 := by omega
      show mlookup (minsert st.unqualifiedRepos n.Repo
        (mfindD st.unqualifiedRepos n.Repo 0 - 1)) r = _
      by_cases hr : n.Repo = r
      · rw [← hr, mlookup_minsert_self, hfd, hcR]
        have hne0 : st.countRepo n.Repo - 1 ≠ 0 := by omega
        rw [if_neg hne0]
        congr 1
        omega
      · rw [mlookup_minsert_ne _ _ (fun he => hr he.symm), hcO r hr]
        exact h.counts r
  have hndUq : NodupKeys (st.removeSession n s.id).unqualifiedRepos := by
    simp only [State.removeSession]
    split
    · exact nodupKeys_merase _ _ (nodupKeys_minsert _ _ _ h.ndUq)
    · exact nodupKeys_minsert _ _ _ h.ndUq
  refine ⟨?_, ?_, hndUq, ?_, ?_, ?_, ?_, ?_, h.wf⟩
  · rw [hbn]
    exact nodupKeys_merase _ _ h.ndName
  · rw [hbid]
    exact nodupKeys_merase _ _ h.ndID
  · -- fwd
    intro p hp
    rw [hbn] at hp
    rcases mem_merase.mp hp with ⟨hpB, hpne⟩
    have hne : p.2.id ≠ s.id := by
      intro hid
      exact hpne (congrArg Prod.fst (hidUnique p hpB hid))
    rcases h.fwd p hpB with ⟨wu, hwl, hwr, hww⟩
    rw [hbid]
    exact ⟨wu, by rw [mlookup_merase_ne _ hne]; exact hwl, hwr, hww⟩
  · -- bwd
    intro q hq
    rw [hbid] at hq
    rcases mem_merase.mp hq with ⟨hqB, hqne⟩
    rcases h.bwd q hqB with ⟨p, hpB, hpid⟩
    have hpne : p.1 ≠ n := by
      intro hpk
      have hpe := eq_of_mem_of_mem_nodupKeys h.ndName hpB hmem hpk
      rw [hpe] at hpid
      exact hqne hpid.symm
    rw [hbn]
    exact ⟨p, mem_merase.mpr ⟨hpB, hpne⟩, hpid⟩
  · -- injIds
    intro p hp p' hp'
    rw [hbn] at hp hp'
    exact h.injIds p (mem_merase.mp hp).1 p' (mem_merase.mp hp').1
  · -- counts
    intro r
    have hgoal := hcounts r
    show mlookup (st.removeSession n s.id).unqualifiedRepos r = _
    rw [hgoal]
    unfold State.countRepo
    rw [hbn]
  · -- idsLive
    intro p hp
    rw [hbn] at hp
    exact h.idsLive p (mem_merase.mp hp).1

theorem killLoop_inv (env : Env) (l : List (WorkUnitName × Session)) :
    ∀ (srv : TmuxServer) (st : State), Inv srv st →
    (∀ p ∈ l, p ∈ st.sessionsByName) →
    ((l.map Prod.fst).Nodup) →
    Inv (killLoop env l srv st).2.1 (killLoop env l srv st).2.2 := by
  induction l with
  | nil =>
    intro srv st h _ _
    have hres : killLoop env [] srv st = (.ok (), (st.updateSessionNames srv env).2, st) := by
      simp only [killLoop]
    rw [hres]
    exact updateSessionNames_inv st srv env h
  | cons p rest ih =>
    intro srv st h hsub hnd
    have hmem : p ∈ st.sessionsByName := hsub p (List.mem_cons_self _ _)
    cases hke : env.killErr p.2.id with
    | some e =>
      have hres : killLoop env (p :: rest) srv st =
          (.error e, { srv with calls := srv.calls ++ [TmuxCall.kill p.2.id] }, st) := by
        simp only [killLoop, TmuxServer.killOp, hke]
      rw [hres]
      exact h.transport rfl rfl
    | none =>
      have hop : srv.killOp env p.2.id = (Except.ok (), (srv.killOp env p.2.id).2) := by
        have h1 : (srv.killOp env p.2.id).1 = Except.ok () := by
          unfold TmuxServer.killOp
          rw [hke]
        exact Prod.ext h1 rfl
      have hres : killLoop env (p :: rest) srv st =
          killLoop env rest (srv.killOp env p.2.id).2
            (st.removeSession p.1 p.2.id) := by
        simp only [killLoop]
        rw [hop]
      rw [hres]
      rcases killOp_live srv env p.2.id hke with ⟨hkl, hkn⟩
      have hrm : Inv srv (st.removeSession p.1 p.2.id) :=
        removeSession_inv st srv p.1 p.2 hmem h
      have hidUnique : ∀ q ∈ st.sessionsByName, q.2.id = p.2.id → q = p := by
        intro q hq hid
        have := h.injIds q hq (p.1, p.2) hmem hid
        rw [this]
      have hne : ∀ q ∈ (st.removeSession p.1 p.2.id).sessionsByName, q.2.id ≠ p.2.id := by
        intro q hq hid
        rw [removeSession_byName] at hq
        rcases mem_merase.mp hq with ⟨hqB, hqne⟩
        exact hqne (congrArg Prod.fst (hidUnique q hqB hid))
      have hinv' : Inv (srv.killOp env p.2.id).2 (st.removeSession p.1 p.2.id) :=
        hrm.killTransport hkl hkn hne
      refine ih (srv.killOp env p.2.id).2 (st.removeSession p.1 p.2.id) hinv' ?_
        (List.Nodup.of_cons hnd)
      intro q hq
      rw [removeSession_byName]
      refine mem_merase.mpr ⟨hsub q (List.mem_cons_of_mem _ hq), ?_⟩
      intro hqk
      have hfst : p.1 ∉ rest.map Prod.fst := by
        have hnd' : (p.1 :: rest.map Prod.fst).Nodup := by
          rw [← List.map_cons]
          exact hnd
        exact (List.nodup_cons.mp hnd').1
      exact hfst (hqk ▸ List.mem_map_of_mem Prod.fst hq)

theorem pruneCandidates_sub (st : State) (env : Env) :
    (∀ q ∈ st.pruneCandidates env, q ∈ st.sessionsByName) ∧
    (NodupKeys st.sessionsByName → ((st.pruneCandidates env).map Prod.fst).Nodup) := by
  unfold State.pruneCandidates
  cases hc : env.current with
  | none =>
    refine ⟨fun q hq => (List.mem_filter.mp hq).1, fun hnd => ?_⟩
    exact List.Nodup.sublist (List.Sublist.map Prod.fst (List.filter_sublist _)) hnd
  | some curId =>
    have hperm : (st.sessionsByName.filter (fun p =>
          decide (p.1.repoName ∉ st.repos.filterMap (fun p =>
            match env.list p.2 with | .error _ => some p.1 | .ok _ => none) ∧
          p.1 ∉ (st.repos.filterMap (fun p =>
            match env.list p.2 with
            | .ok wus => some (wus.map (NewWorkUnitName p.2))
            | .error _ => none)).flatten))).Perm
        ((st.sessionsByName.filter (fun p =>
          decide (p.1.repoName ∉ st.repos.filterMap (fun p =>
            match env.list p.2 with | .error _ => some p.1 | .ok _ => none) ∧
          p.1 ∉ (st.repos.filterMap (fun p =>
            match env.list p.2 with
            | .ok wus => some (wus.map (NewWorkUnitName p.2))
            | .error _ => none)).flatten))).filter
            (fun p => decide (p.2.id ≠ curId)) ++
         (st.sessionsByName.filter (fun p =>
          decide (p.1.repoName ∉ st.repos.filterMap (fun p =>
            match env.list p.2 with | .error _ => some p.1 | .ok _ => none) ∧
          p.1 ∉ (st.repos.filterMap (fun p =>
            match env.list p.2 with
            | .ok wus => some (wus.map (NewWorkUnitName p.2))
            | .error _ => none)).flatten))).filter
            (fun p => decide (p.2.id = curId))) := by
      have hpred : ∀ q : WorkUnitName × Session,
          (decide (q.2.id ≠ curId)) = !(decide (q.2.id = curId)) := by
        intro q
        by_cases hq : q.2.id = curId <;> simp [hq]
      refine List.Perm.symm ?_
      have hp1 := List.filter_append_perm (fun p => decide ((p : WorkUnitName × Session).2.id = curId))
        (st.sessionsByName.filter (fun p =>
          decide (p.1.repoName ∉ st.repos.filterMap (fun p =>
            match env.list p.2 with | .error _ => some p.1 | .ok _ => none) ∧
          p.1 ∉ (st.repos.filterMap (fun p =>
            match env.list p.2 with
            | .ok wus => some (wus.map (NewWorkUnitName p.2))
            | .error _ => none)).flatten)))
      refine List.Perm.trans ?_ hp1
      rw [List.filter_congr (fun q _ => hpred q)]
      exact List.perm_append_comm
    refine ⟨?_, ?_⟩
    · intro q hq
      rcases List.mem_append.mp hq with hq | hq
      · exact (List.mem_filter.mp (List.mem_filter.mp hq).1).1
      · exact (List.mem_filter.mp (List.mem_filter.mp hq).1).1
    · intro hnd
      have hinv : ((st.sessionsByName.filter (fun p =>
          decide (p.1.repoName ∉ st.repos.filterMap (fun p =>
            match env.list p.2 with | .error _ => some p.1 | .ok _ => none) ∧
          p.1 ∉ (st.repos.filterMap (fun p =>
            match env.list p.2 with
            | .ok wus => some (wus.map (NewWorkUnitName p.2))
            | .error _ => none)).flatten))).map Prod.fst).Nodup :=
        List.Nodup.sublist (List.Sublist.map Prod.fst (List.filter_sublist _)) hnd
      exact (hperm.map Prod.fst).nodup_iff.mp hinv

theorem PruneSessions_inv (st : State) (srv : TmuxServer) (env : Env) (h : Inv srv st) :
    Inv (st.PruneSessions srv env).2.1 (st.PruneSessions srv env).2.2 := by
  unfold State.PruneSessions
  exact killLoop_inv env (st.pruneCandidates env) srv st h
    (pruneCandidates_sub st env).1 ((pruneCandidates_sub st env).2 h.ndName)

theorem applyOp_inv {w : TmuxServer × State} (h : Inv w.1 w.2) (op : Op) :
    Inv (applyOp w op).1 (applyOp w op).2 := by
  cases op with
  | newSession env repo wu =>
    exact NewSession_inv w.2 w.1 env repo wu h
  | renameSession env repo old new =>
    exact RenameSession_inv w.2 w.1 env repo old new h
  | pruneSessions env =>
    exact PruneSessions_inv w.2 w.1 env h

theorem runOps_inv (ops : List Op) : ∀ w : TmuxServer × State, Inv w.1 w.2 →
    Inv (runOps w ops).1 (runOps w ops).2 := by
  induction ops with
  | nil =>
    intro w h
    exact h
  | cons op rest ih =>
    intro w h
    exact ih (applyOp w op) (applyOp_inv h op)

/-- C1 (amended): starting from a well-formed server whose live sessions
probe and parse to pairwise-distinct work-unit names, every engine state
reachable by `New` followed by any sequence of `NewSession`,
`RenameSession`, and `PruneSessions` calls (succeeding or failing) keeps
`sessionsByName` and `sessionsByID` mutually consistent: every
`sessionsByName` entry maps through `sessionsByID` back to its repository
and work unit, every `sessionsByID` entry is the image of exactly one
`sessionsByName` entry, and no work-unit name maps to two different
sessions.  The distinctness proviso is forced: when two live sessions parse
to the same name, `New` itself already violates the bijection. -/
theorem C1_index_consistency (srv : TmuxServer) (env : Env) (ops : List Op)
    (hwf : ServerWf srv)
    (hpn : (srv.live.filterMap (probedName env)).Nodup) :
    Consistent (runOps (srv, New srv env) ops).2 :=
  (runOps_inv ops (srv, New srv env) (New_inv srv env hwf hpn)).consistent

/-- Witness for C1: one live session `foo`, then a successful
`NewSession repo bar`; both hypotheses hold at this instance and the
resulting engine is consistent. -/
theorem C1_index_consistency_witness :
    (ServerWf fooSrv ∧ (fooSrv.live.filterMap (probedName probeEnv)).Nodup) ∧
    Consistent (runOps (fooSrv, New fooSrv probeEnv)
      [Op.newSession probeEnv repoFix "bar"]).2 :=
  ⟨⟨⟨by decide, by decide⟩, by decide⟩,
    C1_index_consistency fooSrv probeEnv [Op.newSession probeEnv repoFix "bar"]
      ⟨by decide, by decide⟩ (by decide)⟩

/-- The unamended C1 is false: with live sessions `foo` and `repo>foo` (both
in the repository directory) `New` indexes both under `sessionsByID`, but
`sessionsByName` retains only the later entry, so the session with ID 0 in
`sessionsByID` is the image of no `sessionsByName` entry. -/
theorem C1_counterexample : ¬ Consistent (New dupSrv probeEnv) := by
  intro h
  have h2 := h.2.1 (0, ⟨repoFix, "foo"⟩) (by decide)
  exact absurd h2 (by decide)

end TVS
